import Mathlib

/-! Pipeline dependency core of `be/src/pipeline/pipeline.h`.

A shallow embedding of `doris::pipeline::Pipeline`: the constructor,
`add_dependency`, `finish_one_dependency` and `has_dependency`, together with the
machine-integer behaviour of the `std::atomic<uint32_t>` fan-in counter and of the
`size_t` value returned by `std::vector::size()`.

Modelling conventions.

* Pipelines live on the heap and are referred to through `std::shared_ptr<Pipeline>`.
  A graph of `n` pipelines is a map from the `n` addresses to the objects stored
  there; a pointer is an address `Fin n`, so it is never null and never dangling
  (dereferencing a null `shared_ptr` is undefined behaviour, and `shared_from_this`
  needs the receiver to be owned by a `shared_ptr`).
* `_complete_dependency` is a `uint32_t`: a natural number below `2 ^ 32`; `fetch_add`
  wraps modulo `2 ^ 32`.
* `_dependencies.size()` is a `size_t` (64 bits on the platforms the backend is built
  for); it is the length of the list, and `size() - 1` wraps modulo `2 ^ 64`.
* `DCHECK` is the glog debug assertion: in builds where it is active it aborts the
  process when its condition is false, otherwise it expands to nothing. The build
  mode is the parameter `dcheck`; an abort is the result `none`.
* The operations are modelled as executed one after the other. Calls of
  `finish_one_dependency` made by several threads are modelled by `Concurrent`: every
  interleaving is a schedule of the atomic steps of the calls (the load of the assertion
  and the `fetch_add`), which the atomic counter orders totally.
* `prepare`, `set_source`, `add_operator` and `set_sink` are declared in the class but
  defined elsewhere; their definitions here follow the specification and say so.
-/

namespace doris.pipeline

/-- Number of values of `uint32_t`. -/
abbrev UINT32_MOD : Nat := 4294967296

/-- Number of values of `size_t`. -/
abbrev SIZE_MOD : Nat := 18446744073709551616

/-- The alias `using PipelineId = uint32_t`. -/
abbrev PipelineId := Fin UINT32_MOD

/-- Handle of an operator template held through `OperatorTemplatePtr`; `none` is the null pointer. -/
abbrev OperatorTemplatePtr := Option Nat

/-- The container `OperatorTemplates`. -/
abbrev OperatorTemplates := List OperatorTemplatePtr

/-- Handle of the fragment context held through `std::shared_ptr<PipelineFragmentContext>`. -/
abbrev ContextPtr := Option Nat

/-- Handle of the profile held through `std::unique_ptr<RuntimeProfile>`. -/
abbrev ProfilePtr := Option Nat

/-- Private fields of `class Pipeline`, in declaration order. Pointers to other
pipelines are addresses in a graph of `n` pipelines. -/
structure Pipeline (n : Nat) where
  _complete_dependency : Fin UINT32_MOD
  _source : OperatorTemplatePtr
  _operators : OperatorTemplates
  _sink : OperatorTemplatePtr
  _parents : List (Fin n)
  _dependencies : List (Fin n)
  _pipeline_id : PipelineId
  _context : ContextPtr
  _pipeline_profile : ProfilePtr
deriving DecidableEq, Repr

/-- Wrap-around of a value stored into a `uint32_t`. -/
def uint32_wrap (x : Nat) : Fin UINT32_MOD := ⟨x % UINT32_MOD, Nat.mod_lt _ (by decide)⟩

/-- Unsigned subtraction `a - b` on `size_t`. -/
def size_t_sub (a b : Nat) : Nat := (a + SIZE_MOD - b % SIZE_MOD) % SIZE_MOD

namespace Pipeline

variable {n : Nat}

/-- The constructor `Pipeline(pipeline_id, context)`: the counter is initialised to 0,
the id and context are stored, every other member is default-constructed. -/
def new (pipeline_id : PipelineId) (context : ContextPtr) : Pipeline n :=
  { _complete_dependency := ⟨0, by decide⟩
    _source := none
    _operators := []
    _sink := none
    _parents := []
    _dependencies := []
    _pipeline_id := pipeline_id
    _context := context
    _pipeline_profile := none }

/-- The member `finish_one_dependency()`.
With `dcheck` the assertion `_complete_dependency < _dependencies.size()` is evaluated
first and a failure aborts (`none`). Then `fetch_add(1)` stores the counter plus one
modulo `2 ^ 32` and yields the previous value, which is compared with
`_dependencies.size() - 1` computed in `size_t`. -/
def finish_one_dependency (dcheck : Bool) (p : Pipeline n) : Option (Bool × Pipeline n) :=
  if dcheck && !decide (p._complete_dependency.val < p._dependencies.length) then
    none
  else
    some (decide (p._complete_dependency.val = size_t_sub p._dependencies.length 1),
          { p with _complete_dependency := uint32_wrap (p._complete_dependency.val + 1) })

/-- The member `has_dependency()`: loads the counter and compares it with
`_dependencies.size()`; the object is returned as the call leaves it. -/
def has_dependency (p : Pipeline n) : Bool × Pipeline n :=
  (decide (p._complete_dependency.val < p._dependencies.length), p)

/-- The result of `k` successive calls of `finish_one_dependency()` on one pipeline:
the returned values in call order and the final object; `none` as soon as one call aborts. -/
def finish_dependencies (dcheck : Bool) : Nat → Pipeline n → Option (List Bool × Pipeline n)
  | 0, p => some ([], p)
  | k + 1, p =>
    match p.finish_one_dependency dcheck with
    | none => none
    | some (b, p1) =>
      match finish_dependencies dcheck k p1 with
      | none => none
      | some (bs, p2) => some (b :: bs, p2)

/-- A pipeline at address 0 of a two-pipeline heap whose dependency list holds `k`
entries for the pipeline at address 1 and whose counter is `c`: the state reached from
fresh pipelines by `k` calls `add_dependency` and `c` calls `finish_one_dependency`. -/
def with_dependencies (k : Nat) (c : Fin UINT32_MOD) : Pipeline 2 :=
  { (new 0 none : Pipeline 2) with
    _complete_dependency := c
    _dependencies := List.replicate k 1 }

end Pipeline

/-- The heap: the pipeline object stored at each of the `n` addresses. -/
abbrev Graph (n : Nat) := Fin n → Pipeline n

namespace Graph

variable {n : Nat}

/-- A heap of freshly constructed pipelines. -/
def fresh (ids : Fin n → PipelineId) (contexts : Fin n → ContextPtr) : Graph n :=
  fun i => Pipeline.new (ids i) (contexts i)

/-- The call `self->add_dependency(pipeline)`: first `shared_from_this()` is pushed at the
back of `pipeline->_parents`, then `pipeline` is pushed at the back of
`self->_dependencies` (read after the first push, which matters when both are the same object). -/
def add_dependency (g : Graph n) (self pipeline : Fin n) : Graph n :=
  let g1 := Function.update g pipeline
    { g pipeline with _parents := (g pipeline)._parents ++ [self] }
  Function.update g1 self
    { g1 self with _dependencies := (g1 self)._dependencies ++ [pipeline] }

/-- A sequence of `add_dependency` calls, each given as (receiver, argument), run in order. -/
def add_dependencies (g : Graph n) (calls : List (Fin n × Fin n)) : Graph n :=
  calls.foldl (fun h e => h.add_dependency e.1 e.2) g

/-- The call `self->finish_one_dependency()` on the heap. -/
def finish_one_dependency (dcheck : Bool) (g : Graph n) (self : Fin n) : Option (Bool × Graph n) :=
  match (g self).finish_one_dependency dcheck with
  | none => none
  | some (b, p) => some (b, Function.update g self p)

/-- The call `self->has_dependency()` on the heap. -/
def has_dependency (g : Graph n) (self : Fin n) : Bool × Graph n :=
  ((g self).has_dependency.1, Function.update g self (g self).has_dependency.2)

/-- The diamond of the scenario: P, Q, R, S at addresses 0, 1, 2, 3; P depends on Q and R,
and both Q and R depend on S. -/
def diamond_calls : List (Fin 4 × Fin 4) := [(0, 1), (0, 2), (1, 3), (2, 3)]

/-- Three fresh pipelines with ids 0, 1, 2 and no context. -/
def three_fresh : Graph 3 := fresh (fun i => Fin.castLE (by decide) i) (fun _ => none)

/-- One public operation of `Pipeline` invoked on the pipeline at address `self`. -/
inductive Call (n : Nat) where
  | add_dependency (self pipeline : Fin n)
  | has_dependency (self : Fin n)
  | finish_one_dependency (self : Fin n)
deriving DecidableEq, Repr

/-- The heap after one call; `none` when the call aborts. -/
def call (dcheck : Bool) (g : Graph n) : Call n → Option (Graph n)
  | .add_dependency self pipeline => some (g.add_dependency self pipeline)
  | .has_dependency self => some (g.has_dependency self).2
  | .finish_one_dependency self => (g.finish_one_dependency dcheck self).map Prod.snd

end Graph

/-- The predicate `0 <= counter <= number_of_children` on one pipeline. -/
def Pipeline.counter_in_range {n : Nat} (p : Pipeline n) : Prop :=
  0 ≤ p._complete_dependency.val ∧ p._complete_dependency.val ≤ p._dependencies.length

instance {n : Nat} (p : Pipeline n) : Decidable p.counter_in_range := by
  unfold Pipeline.counter_in_range
  infer_instance

/-- Symmetry of the dependency edges: `b` occurs in the dependency list of `a` as often as `a`
occurs in the parent list of `b`. -/
def Graph.symmetric {n : Nat} (g : Graph n) : Prop :=
  ∀ a b : Fin n, (g a)._dependencies.count b = (g b)._parents.count a

/-- Direct dependency: `b` is an entry of the dependency list of `a`. -/
def Graph.depends_on {n : Nat} (g : Graph n) (a b : Fin n) : Prop :=
  b ∈ (g a)._dependencies

instance {n : Nat} (g : Graph n) (a b : Fin n) : Decidable (g.depends_on a b) := by
  unfold Graph.depends_on
  infer_instance

/-- Transitive dependency: `b` is reached from `a` through one or more direct dependencies. -/
def Graph.transitively_depends_on {n : Nat} (g : Graph n) : Fin n → Fin n → Prop :=
  Relation.TransGen g.depends_on

/-- One fresh pipeline with id 0 and no context. -/
def Graph.one_fresh : Graph 1 := Graph.fresh (fun _ => 0) (fun _ => none)

/-- Four fresh pipelines with ids 0, 1, 2, 3 and no context. -/
def Graph.four_fresh : Graph 4 := Graph.fresh (fun i => Fin.castLE (by decide) i) (fun _ => none)

/-- Heights in the diamond: S has height 0, Q and R have height 1, P has height 2. -/
def Graph.diamond_rank (i : Fin 4) : Nat :=
  if i = 0 then 2 else if i = 3 then 0 else 1

/-- Pipeline 0 of three with the single dependency 1, after that dependency has been
signalled: the heap left by `add_dependency` and one `finish_one_dependency`. -/
def Graph.signalled_once : Graph 3 :=
  match (Graph.three_fresh.add_dependency 0 1).finish_one_dependency true 0 with
  | some (_, g) => g
  | none => Graph.three_fresh

/-- Modelled from the spec: the error taxonomy of the error-handling section; the type
`Status` returned by `prepare`, `set_source`, `add_operator` and `set_sink` comes from
`common/status.h`, which is not part of the sources. -/
inductive Error where
  | StructureError
  | UsageError
  | NotPreparedError
deriving DecidableEq, Repr

namespace Pipeline

variable {n : Nat}

/-- Modelled from the spec: the operator chain of the data model, source at position 0,
sink at the last position, intermediate operators between them. Following the comments on the
fields, `_operators` holds the source at its left end followed by the intermediate operators,
and `_sink` holds the sink. -/
def chain (p : Pipeline n) : OperatorTemplates :=
  p._operators ++ (match p._sink with
    | none => []
    | some t => [some t])

/-- Modelled from the spec: `set_source`, declared in the class but defined outside the
sources. It fails with `StructureError` if a source is already set; otherwise it stores the
template at chain position 0. -/
def set_source (p : Pipeline n) (source_operator : Nat) : Except Error (Pipeline n) :=
  if p._source.isSome then
    Except.error Error.StructureError
  else
    Except.ok { p with _source := some source_operator
                       _operators := some source_operator :: p._operators }

/-- Modelled from the spec: `add_operator`, declared in the class but defined outside the
sources. It appends a template to the interior of the chain. -/
def add_operator (p : Pipeline n) (op : Nat) : Except Error (Pipeline n) :=
  Except.ok { p with _operators := p._operators ++ [some op] }

/-- Modelled from the spec: `set_sink`, declared in the class but defined outside the sources.
It fails with `StructureError` if a sink is already set, or if no source has been set yet;
otherwise it fixes the terminal element of the chain. -/
def set_sink (p : Pipeline n) (sink_operator : Nat) : Except Error (Pipeline n) :=
  if p._sink.isSome || p._source.isNone then
    Except.error Error.StructureError
  else
    Except.ok { p with _sink := some sink_operator }

/-- Modelled from the spec: `prepare`, declared in the class but defined outside the sources.
It validates the structure (non-empty chain, a source, a sink) and fails with
`StructureError` if the validation fails. Calling it twice is a usage error: a pipeline that
is already prepared, that is, whose profile storage is allocated, is refused with
`UsageError`. Otherwise it allocates the profile storage. The class has no field for a
captured required count: the count is read from `_dependencies`. -/
def prepare (p : Pipeline n) (_state : Nat) (profile : Nat) : Except Error (Pipeline n) :=
  if p.chain.isEmpty || p._source.isNone || p._sink.isNone then
    Except.error Error.StructureError
  else if p._pipeline_profile.isSome then
    Except.error Error.UsageError
  else
    Except.ok { p with _pipeline_profile := some profile }

/-- One call of the structural assembly, with the template it is given. -/
inductive BuildCall where
  | set_source (source_operator : Nat)
  | add_operator (op : Nat)
  | set_sink (sink_operator : Nat)
deriving DecidableEq, Repr

/-- The status and object produced by one call of the structural assembly. -/
def build_call (p : Pipeline n) : BuildCall → Except Error (Pipeline n)
  | BuildCall.set_source t => p.set_source t
  | BuildCall.add_operator t => p.add_operator t
  | BuildCall.set_sink t => p.set_sink t

/-- The pipeline object after one call of the structural assembly: a call that fails stores
nothing and leaves the object as it was. -/
def after_call (p : Pipeline n) (c : BuildCall) : Pipeline n :=
  match p.build_call c with
  | Except.ok p1 => p1
  | Except.error _ => p

/-- The pipeline object after a sequence of calls of the structural assembly, run in order. -/
def after_calls (p : Pipeline n) (calls : List BuildCall) : Pipeline n :=
  calls.foldl after_call p

/-- A pipeline whose structural fields are as the constructor leaves them (no source, empty
chain, no sink, no profile) and whose other fields are those of `p`. -/
def unassembled (p : Pipeline n) : Pipeline n :=
  { p with _source := none, _operators := [], _sink := none, _pipeline_profile := none }

end Pipeline

/-- Progress of one thread inside its call of `finish_one_dependency()`: not yet begun;
past the load of the `DCHECK` and before the `fetch_add`; returned with its result. -/
inductive Thread where
  | start
  | checked
  | returned (result : Bool)
deriving DecidableEq, Repr

/-- `k` threads that each make one call of `finish_one_dependency()` on the same pipeline:
the shared object, the progress of every thread, and the calls that have returned, in the
order of their `fetch_add` in the modification order of the atomic counter. -/
structure Concurrent (n k : Nat) where
  pipeline : Pipeline n
  threads : Fin k → Thread
  completed : List (Fin k × Bool)

namespace Concurrent

variable {n k : Nat}

/-- No thread has begun its call. -/
def init (p : Pipeline n) : Concurrent n k :=
  { pipeline := p, threads := fun _ => Thread.start, completed := [] }

/-- The atomic load of the assertion `DCHECK(_complete_dependency < _dependencies.size())`
by thread `t`; a false assertion aborts the process. -/
def dcheck_load (s : Concurrent n k) (t : Fin k) : Option (Concurrent n k) :=
  if s.pipeline._complete_dependency.val < s.pipeline._dependencies.length then
    some { s with threads := Function.update s.threads t Thread.checked }
  else
    none

/-- The atomic `fetch_add(1)` by thread `t` and the comparison of the value it yields with
`_dependencies.size() - 1`, which is the call without its assertion; the thread returns. -/
def fetch_add (s : Concurrent n k) (t : Fin k) : Option (Concurrent n k) :=
  match s.pipeline.finish_one_dependency false with
  | none => none
  | some (b, p1) =>
    some { pipeline := p1
           threads := Function.update s.threads t (Thread.returned b)
           completed := s.completed ++ [(t, b)] }

/-- The next atomic step of thread `t`: with `DCHECK` the load of the assertion and then the
`fetch_add`, without it the `fetch_add` alone; a thread that has returned does nothing. -/
def step (dcheck : Bool) (s : Concurrent n k) (t : Fin k) : Option (Concurrent n k) :=
  match s.threads t with
  | Thread.start => if dcheck then s.dcheck_load t else s.fetch_add t
  | Thread.checked => s.fetch_add t
  | Thread.returned _ => some s

/-- Number of atomic steps of one call. -/
def steps_per_call (dcheck : Bool) : Nat := if dcheck then 2 else 1

/-- An interleaving is a schedule: the list of the threads in the order in which they take
their atomic steps. The run of a schedule is `none` when an assertion aborts the process. -/
def run (dcheck : Bool) (s : Concurrent n k) (schedule : List (Fin k)) :
    Option (Concurrent n k) :=
  schedule.foldl (fun st t => st.bind (fun s1 => s1.step dcheck t)) (some s)

end Concurrent

/-! ## Machine-integer lemmas -/

open Pipeline

variable {n : Nat}

/-- The stored value is the argument reduced modulo `2 ^ 32`. -/
theorem uint32_wrap_val (x : Nat) : (uint32_wrap x).val = x % UINT32_MOD := rfl

/-- Storing a value that already is a `uint32_t` changes nothing. -/
theorem uint32_wrap_self (c : Fin UINT32_MOD) : uint32_wrap c.val = c := by
  apply Fin.ext
  simp [uint32_wrap_val, Nat.mod_eq_of_lt c.isLt]

/-- For a non-empty vector `size() - 1` does not wrap. -/
theorem size_t_sub_one (a : Nat) (h0 : 0 < a) (h : a ≤ SIZE_MOD) : size_t_sub a 1 = a - 1 := by
  unfold size_t_sub
  simp only [SIZE_MOD] at *
  omega

/-- For an empty vector `size() - 1` wraps to the largest `size_t`. -/
theorem size_t_sub_one_zero : size_t_sub 0 1 = SIZE_MOD - 1 := by
  decide

/-! ## One call and successive calls of `finish_one_dependency` -/

/-- When the assertion is compiled out or holds, the call returns the comparison of the old
counter with `size() - 1` and stores the incremented counter. -/
theorem Pipeline.finish_one_dependency_eq (dcheck : Bool) (p : Pipeline n)
    (h : dcheck = true → p._complete_dependency.val < p._dependencies.length) :
    p.finish_one_dependency dcheck =
      some (decide (p._complete_dependency.val = size_t_sub p._dependencies.length 1),
            { p with _complete_dependency := uint32_wrap (p._complete_dependency.val + 1) }) := by
  unfold Pipeline.finish_one_dependency
  cases dcheck
  · simp
  · simp [h rfl]

/-- Closed form of `k` successive calls that stay within the assertion: call number `i`
(from 0) sees the counter `(c + i) mod 2 ^ 32`, and the final counter is `(c + k) mod 2 ^ 32`. -/
theorem Pipeline.finish_dependencies_eq (dcheck : Bool) : ∀ (k : Nat) (p : Pipeline n),
    (dcheck = true → p._complete_dependency.val + k ≤ p._dependencies.length) →
    p.finish_dependencies dcheck k =
      some ((List.range k).map (fun i =>
              decide ((p._complete_dependency.val + i) % UINT32_MOD
                        = size_t_sub p._dependencies.length 1)),
            { p with _complete_dependency := uint32_wrap (p._complete_dependency.val + k) }) := by
  intro k
  induction k with
  | zero =>
    intro p _
    simp [Pipeline.finish_dependencies, uint32_wrap_self]
  | succ k ih =>
    intro p h
    have hlt := p._complete_dependency.isLt
    have h1 : dcheck = true → p._complete_dependency.val < p._dependencies.length := by
      intro hd; have := h hd; omega
    have h2 : dcheck = true →
        (uint32_wrap (p._complete_dependency.val + 1)).val + k ≤ p._dependencies.length := by
      intro hd
      have := h hd
      have := Nat.mod_le (p._complete_dependency.val + 1) UINT32_MOD
      simp only [uint32_wrap_val]
      omega
    simp only [Pipeline.finish_dependencies, Pipeline.finish_one_dependency_eq dcheck p h1]
    rw [ih _ h2]
    simp only [List.range_succ_eq_map, List.map_cons, List.map_map, uint32_wrap_val]
    have e : ∀ i, ((p._complete_dependency.val + 1) % UINT32_MOD + i) % UINT32_MOD
        = (p._complete_dependency.val + (i + 1)) % UINT32_MOD := by
      intro i
      simp only [UINT32_MOD]
      omega
    have e0 : (p._complete_dependency.val + 0) % UINT32_MOD = p._complete_dependency.val := by
      simp [Nat.mod_eq_of_lt hlt]
    simp only [Function.comp, e, e0]
    congr 3
    apply Fin.ext
    simp only [uint32_wrap_val, e]

/-- The sample pipeline has `k` dependencies. -/
theorem Pipeline.with_dependencies_length (k : Nat) (c : Fin UINT32_MOD) :
    (Pipeline.with_dependencies k c)._dependencies.length = k := by
  simp [Pipeline.with_dependencies]

/-- The sample pipeline has counter `c`. -/
theorem Pipeline.with_dependencies_counter (k : Nat) (c : Fin UINT32_MOD) :
    (Pipeline.with_dependencies k c)._complete_dependency = c := rfl

/-- Comparing each index below `k + 1` with `k` gives `k` times false, then true. -/
theorem map_range_last (k : Nat) :
    (List.range (k + 1)).map (fun i => decide (i = k)) = List.replicate k false ++ [true] := by
  rw [List.range_succ, List.map_append]
  congr 1
  · rw [List.eq_replicate_iff]
    refine ⟨by simp, ?_⟩
    intro b hb
    simp only [List.mem_map, List.mem_range] at hb
    obtain ⟨i, hi, rfl⟩ := hb
    simp; omega
  · simp

/-- A run of false values followed by one true holds exactly one true. -/
theorem count_true_replicate_false (k : Nat) :
    (List.replicate k false ++ [true]).count true = 1 := by
  simp [List.count_append, List.count_replicate]

/-! ## The fan-in counter: C1 to C5 -/

/-- C1 (amended): for `0 < k ≤ 2 ^ 32`, on a pipeline with exactly `k` dependencies and
counter 0, `k` successive calls of `finish_one_dependency` all return, the first `k - 1`
return false and the `k`-th returns true, so exactly one call returns true. -/
theorem finish_one_dependency_only_last_true (dcheck : Bool) (k : Nat) (p : Pipeline n)
    (hk : 0 < k) (hk32 : k ≤ UINT32_MOD)
    (hdeps : p._dependencies.length = k) (hc : p._complete_dependency.val = 0) :
    p.finish_dependencies dcheck k
        = some (List.replicate (k - 1) false ++ [true],
                { p with _complete_dependency := uint32_wrap k })
      ∧ (List.replicate (k - 1) false ++ [true]).count true = 1 := by
  refine ⟨?_, count_true_replicate_false _⟩
  rw [Pipeline.finish_dependencies_eq dcheck k p (by intro _; omega), hc, Nat.zero_add]
  obtain ⟨m, rfl⟩ : ∃ m, k = m + 1 := ⟨k - 1, by omega⟩
  rw [Nat.add_sub_cancel, ← map_range_last m]
  congr 2
  apply List.map_congr_left
  intro i hi
  rw [List.mem_range] at hi
  have hs : size_t_sub p._dependencies.length 1 = m := by
    rw [hdeps, size_t_sub_one _ hk (by simp only [UINT32_MOD, SIZE_MOD] at *; omega)]
    rfl
  rw [hs]
  have : (0 + i) % UINT32_MOD = i := by
    simp only [UINT32_MOD] at *
    omega
  rw [this]

/-- C1 (witness): three dependencies, three calls: false, false, true. -/
theorem finish_one_dependency_only_last_true_witness :
    (0 < 3 ∧ 3 ≤ UINT32_MOD) ∧
    (Pipeline.with_dependencies 3 0).finish_dependencies true 3
        = some ([false, false, true], Pipeline.with_dependencies 3 3)
      ∧ [false, false, true].count true = 1 :=
  ⟨by decide,
   finish_one_dependency_only_last_true true 3 (Pipeline.with_dependencies 3 0)
     (by decide) (by decide) (by decide) (by decide)⟩

/-- With more than `2 ^ 32` dependencies the 32-bit counter never reaches `size() - 1`:
every one of the `k` calls returns false. -/
theorem finish_dependencies_all_false (dcheck : Bool) (k : Nat) (p : Pipeline n)
    (hk32 : UINT32_MOD < k) (hk64 : k ≤ SIZE_MOD)
    (hdeps : p._dependencies.length = k) (hc : p._complete_dependency.val = 0) :
    (p.finish_dependencies dcheck k).map Prod.fst = some (List.replicate k false) := by
  rw [Pipeline.finish_dependencies_eq dcheck k p (by intro _; omega)]
  simp only [Option.map]
  congr 1
  rw [List.eq_replicate_iff]
  refine ⟨by simp, ?_⟩
  intro b hb
  simp only [List.mem_map, List.mem_range] at hb
  obtain ⟨i, _, rfl⟩ := hb
  have hs : size_t_sub p._dependencies.length 1 = k - 1 := by
    rw [hdeps, size_t_sub_one _ (by omega) hk64]
  rw [hs, hc]
  have := Nat.mod_lt (0 + i) (show 0 < UINT32_MOD by decide)
  simp only [decide_eq_false_iff_not]
  omega

/-- C1 (counterexample): a pipeline with `2 ^ 32 + 1` dependencies and counter 0; all of the
`2 ^ 32 + 1` successive calls of `finish_one_dependency` return false, the last one included. -/
theorem finish_one_dependency_last_call_false :
    ((Pipeline.with_dependencies 4294967297 0).finish_dependencies true 4294967297).map Prod.fst
      = some (List.replicate 4294967297 false) :=
  finish_dependencies_all_false true 4294967297 (Pipeline.with_dependencies 4294967297 0)
    (by decide) (by decide) (Pipeline.with_dependencies_length _ _) rfl


/-- C2 (counterexample): with counter `2 ^ 32 - 1` and `2 ^ 32` dependencies the counter is below
the number of dependencies, yet one call leaves the counter at 0, not at `2 ^ 32`. -/
theorem finish_one_dependency_wraps_counter :
    (4294967295 : Nat) < (Pipeline.with_dependencies 4294967296 4294967295)._dependencies.length
    ∧ (Pipeline.with_dependencies 4294967296 4294967295).finish_one_dependency true
        = some (true, Pipeline.with_dependencies 4294967296 0) := by
  have hlen := Pipeline.with_dependencies_length 4294967296 4294967295
  refine ⟨by rw [hlen]; decide, ?_⟩
  rw [Pipeline.finish_one_dependency_eq true _ (by intro _; rw [hlen]; decide), hlen]
  rfl

/-- C2 (amended): when the counter `c` is below the number of dependencies `n` (a `size_t`
value, so `n ≤ 2 ^ 64`), one call of `finish_one_dependency` returns, leaves the counter at
`(c + 1) mod 2 ^ 32`, which is `c + 1` unless `c = 2 ^ 32 - 1`, and returns true exactly when
`c + 1 = n`, that is when the value before the increment equals `n - 1`. -/
theorem finish_one_dependency_step (dcheck : Bool) (p : Pipeline n)
    (hlt : p._complete_dependency.val < p._dependencies.length)
    (hsize : p._dependencies.length ≤ SIZE_MOD) :
    ∃ b p1, p.finish_one_dependency dcheck = some (b, p1)
      ∧ p1._complete_dependency.val = (p._complete_dependency.val + 1) % UINT32_MOD
      ∧ (p._complete_dependency.val + 1 < UINT32_MOD →
          p1._complete_dependency.val = p._complete_dependency.val + 1)
      ∧ (b = true ↔ p._complete_dependency.val + 1 = p._dependencies.length)
      ∧ (b = true ↔ p._complete_dependency.val = p._dependencies.length - 1) := by
  refine ⟨_, _, Pipeline.finish_one_dependency_eq dcheck p (fun _ => hlt), rfl, ?_, ?_, ?_⟩
  · intro h
    exact Nat.mod_eq_of_lt h
  · rw [size_t_sub_one _ (by omega) hsize, decide_eq_true_iff]
    omega
  · rw [size_t_sub_one _ (by omega) hsize, decide_eq_true_iff]

/-- C2 (witness): two dependencies and counter 1; the call returns true and leaves counter 2. -/
theorem finish_one_dependency_step_witness :
    ((1 : Nat) < 2 ∧ 2 ≤ SIZE_MOD) ∧
    ∃ b p1, (Pipeline.with_dependencies 2 1).finish_one_dependency false = some (b, p1)
      ∧ p1._complete_dependency.val = (1 + 1) % UINT32_MOD
      ∧ (1 + 1 < UINT32_MOD → p1._complete_dependency.val = 1 + 1)
      ∧ (b = true ↔ 1 + 1 = 2)
      ∧ (b = true ↔ 1 = 2 - 1) :=
  ⟨by decide,
   finish_one_dependency_step false (Pipeline.with_dependencies 2 1) (by decide) (by decide)⟩


/-- C3 (counterexample): with `2 ^ 32` dependencies and counter 0, after `2 ^ 32` calls of
`finish_one_dependency` the counter has wrapped to 0 and `has_dependency` still returns true. -/
theorem has_dependency_true_after_all_finished :
    ∃ bs p1, (Pipeline.with_dependencies 4294967296 0).finish_dependencies true 4294967296
        = some (bs, p1) ∧ p1.has_dependency.1 = true := by
  have hlen := Pipeline.with_dependencies_length 4294967296 0
  refine ⟨_, _, Pipeline.finish_dependencies_eq true 4294967296 _ (by intro _; rw [hlen]; decide), ?_⟩
  simp only [Pipeline.has_dependency, hlen]
  decide

/-- C3 (amended): for `k < 2 ^ 32`, on a pipeline with `k` dependencies and counter 0, and for
every `j ≤ k`, the first `j` calls of `finish_one_dependency` all return, the `i`-th of them
returns true exactly when `i = k`, and afterwards `has_dependency` returns true exactly when
`j < k`. -/
theorem has_dependency_after_finishes (dcheck : Bool) (k j : Nat) (p : Pipeline n)
    (hk32 : k < UINT32_MOD) (hdeps : p._dependencies.length = k)
    (hc : p._complete_dependency.val = 0) (hj : j ≤ k) :
    ∃ p1, p.finish_dependencies dcheck j
        = some ((List.range j).map (fun i => decide (i + 1 = k)), p1)
      ∧ (p1.has_dependency.1 = true ↔ j < k) := by
  refine ⟨{ p with _complete_dependency := uint32_wrap (p._complete_dependency.val + j) },
    ?_, ?_⟩
  · rw [Pipeline.finish_dependencies_eq dcheck j p (by intro _; omega)]
    congr 2
    apply List.map_congr_left
    intro i hi
    rw [List.mem_range] at hi
    have hmod : (p._complete_dependency.val + i) % UINT32_MOD = i := by
      rw [hc]
      simp only [UINT32_MOD] at *
      omega
    rw [hmod, hdeps]
    rw [size_t_sub_one k (by omega) (by simp only [UINT32_MOD, SIZE_MOD] at *; omega)]
    simp only [decide_eq_decide]
    omega
  · simp only [Pipeline.has_dependency, decide_eq_true_iff, uint32_wrap_val, hc, hdeps]
    simp only [UINT32_MOD] at *
    omega

/-- C3 (witness): the scenario with two dependencies; after the first call, which returns
false, `has_dependency` is true; after the second, which returns true, it is false. -/
theorem has_dependency_after_finishes_witness :
    ((2 : Nat) < UINT32_MOD ∧ (1 : Nat) ≤ 2 ∧ (2 : Nat) ≤ 2) ∧
    (∃ p1, (Pipeline.with_dependencies 2 0).finish_dependencies true 1 = some ([false], p1)
      ∧ (p1.has_dependency.1 = true ↔ 1 < 2)) ∧
    (∃ p1, (Pipeline.with_dependencies 2 0).finish_dependencies true 2 = some ([false, true], p1)
      ∧ (p1.has_dependency.1 = true ↔ 2 < 2)) :=
  ⟨by decide,
   has_dependency_after_finishes true 2 1 (Pipeline.with_dependencies 2 0)
     (by decide) (by decide) (by decide) (by decide),
   has_dependency_after_finishes true 2 2 (Pipeline.with_dependencies 2 0)
     (by decide) (by decide) (by decide) (by decide)⟩

/-- C4: `has_dependency` returns true exactly when the counter is below the number of
dependencies, and it leaves the pipeline object, hence every field of it, and the whole heap
unchanged. -/
theorem has_dependency_pure_read (p : Pipeline n) (g : Graph n) (self : Fin n) :
    (p.has_dependency.1 = true ↔ p._complete_dependency.val < p._dependencies.length)
    ∧ p.has_dependency.2 = p
    ∧ p.has_dependency.2._complete_dependency = p._complete_dependency
    ∧ p.has_dependency.2._dependencies = p._dependencies
    ∧ p.has_dependency.2._parents = p._parents
    ∧ ((g.has_dependency self).1 = true ↔
        (g self)._complete_dependency.val < (g self)._dependencies.length)
    ∧ (g.has_dependency self).2 = g := by
  refine ⟨by simp [Pipeline.has_dependency], rfl, rfl, rfl, rfl,
    by simp [Graph.has_dependency, Pipeline.has_dependency], ?_⟩
  simp [Graph.has_dependency, Pipeline.has_dependency]

/-- C5 (counterexample): in a build without `DCHECK`, a call on a pipeline with one dependency
whose counter is already 1 returns false normally and advances the counter to 2. -/
theorem overcall_returns_normally :
    (Pipeline.with_dependencies 1 1).finish_one_dependency false
      = some (false, Pipeline.with_dependencies 1 2) := by
  decide

/-- C5 (amended): on a pipeline whose counter is at least its number of dependencies, a call of
`finish_one_dependency` aborts without a result when `DCHECK` is active; when `DCHECK` is
compiled out it returns false and stores the counter plus one modulo `2 ^ 32`. -/
theorem finish_one_dependency_overcall (p : Pipeline n)
    (hge : p._dependencies.length ≤ p._complete_dependency.val) :
    p.finish_one_dependency true = none
    ∧ p.finish_one_dependency false
        = some (false,
                { p with _complete_dependency := uint32_wrap (p._complete_dependency.val + 1) })
    ∧ (uint32_wrap (p._complete_dependency.val + 1)).val
        = (p._complete_dependency.val + 1) % UINT32_MOD := by
  have hlt := p._complete_dependency.isLt
  refine ⟨?_, ?_, rfl⟩
  · simp [Pipeline.finish_one_dependency]
    omega
  · rw [Pipeline.finish_one_dependency_eq false p (by intro h; cases h)]
    congr 2
    rw [decide_eq_false_iff_not]
    unfold size_t_sub
    simp only [UINT32_MOD, SIZE_MOD] at *
    omega

/-- C5 (witness): one dependency and counter 1. -/
theorem finish_one_dependency_overcall_witness :
    (1 : Nat) ≤ 1 ∧
    (Pipeline.with_dependencies 1 1).finish_one_dependency true = none
    ∧ (Pipeline.with_dependencies 1 1).finish_one_dependency false
        = some (false, Pipeline.with_dependencies 1 2)
    ∧ (uint32_wrap (1 + 1)).val = (1 + 1) % UINT32_MOD :=
  ⟨by decide, finish_one_dependency_overcall (Pipeline.with_dependencies 1 1) (by decide)⟩


/-! ## Effect of `add_dependency` on the heap -/

/-- Dependency list of any pipeline after one `add_dependency`. -/
theorem Graph.add_dependency_dependencies (g : Graph n) (a b x : Fin n) :
    (g.add_dependency a b x)._dependencies
      = if x = a then (g x)._dependencies ++ [b] else (g x)._dependencies := by
  by_cases hxa : x = a <;> by_cases hxb : x = b <;>
    simp [Graph.add_dependency, Function.update, hxa, hxb] <;> aesop

/-- Parent list of any pipeline after one `add_dependency`. -/
theorem Graph.add_dependency_parents (g : Graph n) (a b x : Fin n) :
    (g.add_dependency a b x)._parents
      = if x = b then (g x)._parents ++ [a] else (g x)._parents := by
  by_cases hxa : x = a <;> by_cases hxb : x = b <;>
    simp [Graph.add_dependency, Function.update, hxa, hxb] <;> aesop

/-- No counter is touched by `add_dependency`. -/
theorem Graph.add_dependency_counter (g : Graph n) (a b x : Fin n) :
    (g.add_dependency a b x)._complete_dependency = (g x)._complete_dependency := by
  by_cases hxa : x = a <;> by_cases hxb : x = b <;>
    simp [Graph.add_dependency, Function.update, hxa, hxb] <;> aesop

/-- No call: the heap is unchanged. -/
theorem Graph.add_dependencies_nil (g : Graph n) : g.add_dependencies [] = g := rfl

/-- The first call is run first. -/
theorem Graph.add_dependencies_cons (g : Graph n) (e : Fin n × Fin n)
    (calls : List (Fin n × Fin n)) :
    g.add_dependencies (e :: calls) = (g.add_dependency e.1 e.2).add_dependencies calls := rfl

/-- No counter is touched by a sequence of `add_dependency` calls. -/
theorem Graph.add_dependencies_counter (calls : List (Fin n × Fin n)) :
    ∀ (g : Graph n) (x : Fin n),
      (g.add_dependencies calls x)._complete_dependency = (g x)._complete_dependency := by
  induction calls with
  | nil => intro g x; rfl
  | cons e calls ih =>
    intro g x
    rw [Graph.add_dependencies_cons, ih, Graph.add_dependency_counter]

/-- Each call with `x` as receiver adds one entry to the dependency list of `x`. -/
theorem Graph.add_dependencies_length (calls : List (Fin n × Fin n)) :
    ∀ (g : Graph n) (x : Fin n),
      (g.add_dependencies calls x)._dependencies.length
        = (g x)._dependencies.length + calls.countP (fun e => decide (e.1 = x)) := by
  induction calls with
  | nil => intro g x; simp [Graph.add_dependencies_nil]
  | cons e calls ih =>
    intro g x
    rw [Graph.add_dependencies_cons, ih, Graph.add_dependency_dependencies, List.countP_cons]
    by_cases h : x = e.1
    · subst h
      simp
      omega
    · have h2 : ¬ e.1 = x := fun h3 => h h3.symm
      simp [h, h2]

/-- One `add_dependency` keeps the edges symmetric. -/
theorem Graph.symmetric_add_dependency (g : Graph n) (x y : Fin n) (h : g.symmetric) :
    (g.add_dependency x y).symmetric := by
  intro a b
  rw [Graph.add_dependency_dependencies, Graph.add_dependency_parents]
  have hab := h a b
  by_cases h1 : a = x <;> by_cases h2 : b = y <;>
    simp [h1, h2, List.count_append, List.count_singleton] <;> aesop

/-- A sequence of `add_dependency` calls keeps the edges symmetric. -/
theorem Graph.symmetric_add_dependencies (calls : List (Fin n × Fin n)) :
    ∀ g : Graph n, g.symmetric → (g.add_dependencies calls).symmetric := by
  induction calls with
  | nil => intro g h; exact h
  | cons e calls ih =>
    intro g h
    rw [Graph.add_dependencies_cons]
    exact ih _ (Graph.symmetric_add_dependency g e.1 e.2 h)

/-- Fresh pipelines have no edges. -/
theorem Graph.symmetric_fresh (ids : Fin n → PipelineId) (contexts : Fin n → ContextPtr) :
    (Graph.fresh ids contexts).symmetric := by
  intro a b
  simp [Graph.fresh, Pipeline.new]


/-- The heap is the same after `has_dependency`. -/
theorem Graph.has_dependency_heap (g : Graph n) (self : Fin n) :
    (g.has_dependency self).2 = g := by
  simp [Graph.has_dependency, Pipeline.has_dependency]

/-- The call `finish_one_dependency` on the heap replaces the receiver only. -/
theorem Graph.finish_on_heap_eq (dcheck : Bool) (g : Graph n) (self : Fin n)
    (h : dcheck = true → (g self)._complete_dependency.val < (g self)._dependencies.length) :
    g.finish_one_dependency dcheck self =
      some (decide ((g self)._complete_dependency.val = size_t_sub (g self)._dependencies.length 1),
            Function.update g self
              { g self with
                _complete_dependency := uint32_wrap ((g self)._complete_dependency.val + 1) }) := by
  unfold Graph.finish_one_dependency
  rw [Pipeline.finish_one_dependency_eq dcheck (g self) h]

/-! ## The dependency graph: C6 to C10 -/

/-- C6: in every heap reached from fresh pipelines by a sequence of `add_dependency` calls, `b`
occurs in the dependency list of `a` as often as `a` occurs in the parent list of `b`; and
right after `a.add_dependency(b)` on any heap, `b` is among the dependencies of `a` and `a` is
among the parents of `b`. -/
theorem dependency_edges_symmetric (ids : Fin n → PipelineId) (contexts : Fin n → ContextPtr)
    (calls : List (Fin n × Fin n)) (g : Graph n) (a b : Fin n) :
    (((Graph.fresh ids contexts).add_dependencies calls a)._dependencies.count b
      = ((Graph.fresh ids contexts).add_dependencies calls b)._parents.count a)
    ∧ b ∈ (g.add_dependency a b a)._dependencies
    ∧ a ∈ (g.add_dependency a b b)._parents := by
  refine ⟨Graph.symmetric_add_dependencies calls _ (Graph.symmetric_fresh ids contexts) a b,
    ?_, ?_⟩
  · simp [Graph.add_dependency_dependencies]
  · simp [Graph.add_dependency_parents]

/-- C7: after any sequence of `add_dependency` calls on fresh pipelines, the length of the
dependency list of a pipeline, which is the value `has_dependency` and `finish_one_dependency`
compare the counter with, is the number of calls made with that pipeline as receiver; for the
diamond the lengths are 2 for P, 1 for Q, 1 for R and 0 for S. -/
theorem required_is_direct_child_count (ids : Fin n → PipelineId) (contexts : Fin n → ContextPtr)
    (calls : List (Fin n × Fin n)) (a : Fin n)
    (ids4 : Fin 4 → PipelineId) (contexts4 : Fin 4 → ContextPtr) :
    (((Graph.fresh ids contexts).add_dependencies calls a)._dependencies.length
      = calls.countP (fun e => decide (e.1 = a)))
    ∧ ((Graph.fresh ids4 contexts4).add_dependencies Graph.diamond_calls 0)._dependencies.length = 2
    ∧ ((Graph.fresh ids4 contexts4).add_dependencies Graph.diamond_calls 1)._dependencies.length = 1
    ∧ ((Graph.fresh ids4 contexts4).add_dependencies Graph.diamond_calls 2)._dependencies.length = 1
    ∧ ((Graph.fresh ids4 contexts4).add_dependencies Graph.diamond_calls 3)._dependencies.length = 0
    := by
  have hfresh : ∀ {m : Nat} (i : Fin m → PipelineId) (c : Fin m → ContextPtr) (x : Fin m),
      (Graph.fresh i c x)._dependencies.length = 0 := fun _ _ _ => rfl
  refine ⟨?_, ?_, ?_, ?_, ?_⟩
  · rw [Graph.add_dependencies_length, hfresh, Nat.zero_add]
  all_goals
    rw [Graph.add_dependencies_length, hfresh, Nat.zero_add]
    decide

/-- C8: a freshly constructed pipeline has counter 0 and empty dependency and parent lists, and
`has_dependency` returns false on it, also after any sequence of `add_dependency` calls on the
heap in which it is never the receiver. -/
theorem fresh_pipeline_has_no_dependency (pipeline_id : PipelineId) (context : ContextPtr)
    (ids : Fin n → PipelineId) (contexts : Fin n → ContextPtr)
    (calls : List (Fin n × Fin n)) (a : Fin n)
    (hrecv : ∀ e ∈ calls, e.1 ≠ a) :
    (Pipeline.new pipeline_id context : Pipeline n)._complete_dependency.val = 0
    ∧ (Pipeline.new pipeline_id context : Pipeline n)._dependencies = []
    ∧ (Pipeline.new pipeline_id context : Pipeline n)._parents = []
    ∧ (Pipeline.new pipeline_id context : Pipeline n).has_dependency.1 = false
    ∧ (((Graph.fresh ids contexts).add_dependencies calls).has_dependency a).1 = false := by
  refine ⟨rfl, rfl, rfl, rfl, ?_⟩
  have hlen := Graph.add_dependencies_length calls (Graph.fresh ids contexts) a
  have hcount : calls.countP (fun e => decide (e.1 = a)) = 0 := by
    rw [List.countP_eq_zero]
    intro e he
    simpa using hrecv e he
  have hzero : (Graph.fresh ids contexts a)._dependencies.length = 0 := rfl
  rw [hcount, hzero] at hlen
  simp [Graph.has_dependency, Pipeline.has_dependency, hlen]

/-- C8 (witness): pipeline 0 is a dependency of 1 and 2 and is never a receiver. -/
theorem fresh_pipeline_has_no_dependency_witness :
    (∀ e ∈ [((1 : Fin 3), (0 : Fin 3)), (2, 0), (2, 1)], e.1 ≠ 0)
    ∧ ((Graph.three_fresh.add_dependencies [(1, 0), (2, 0), (2, 1)]).has_dependency 0).1 = false :=
  ⟨by decide,
   (fresh_pipeline_has_no_dependency 0 none (fun i => Fin.castLE (by decide) i) (fun _ => none)
      [((1 : Fin 3), (0 : Fin 3)), (2, 0), (2, 1)] 0 (by decide)).2.2.2.2⟩


/-- C9 (counterexample): a pipeline with `2 ^ 32` dependencies and counter `2 ^ 32 - 1` satisfies
`0 <= counter <= number_of_children` and the precondition `counter < number_of_children`, and
one call of `finish_one_dependency` leaves it with a smaller counter. -/
theorem finish_one_dependency_decreases_counter :
    (Pipeline.with_dependencies 4294967296 4294967295).counter_in_range
    ∧ (Pipeline.with_dependencies 4294967296 4294967295)._complete_dependency.val
        < (Pipeline.with_dependencies 4294967296 4294967295)._dependencies.length
    ∧ ∃ b p1, (Pipeline.with_dependencies 4294967296 4294967295).finish_one_dependency false
          = some (b, p1)
        ∧ p1._complete_dependency.val
            < (Pipeline.with_dependencies 4294967296 4294967295)._complete_dependency.val := by
  have hlen := Pipeline.with_dependencies_length 4294967296 4294967295
  refine ⟨?_, ?_, _, _, Pipeline.finish_one_dependency_eq false _ (by intro h; cases h), ?_⟩
  · unfold Pipeline.counter_in_range
    rw [hlen]
    decide
  · rw [hlen]
    decide
  · decide

/-- Counters after any call that returns: the receiver of `finish_one_dependency` holds its
old counter plus one modulo `2 ^ 32`, every other counter is unchanged. -/
theorem Graph.call_counter (dcheck : Bool) (g g1 : Graph n) (op : Graph.Call n)
    (h : g.call dcheck op = some g1) (x : Fin n) :
    (g1 x)._complete_dependency
      = if op = Graph.Call.finish_one_dependency x then
          uint32_wrap ((g x)._complete_dependency.val + 1)
        else (g x)._complete_dependency := by
  cases op with
  | add_dependency a b =>
    simp only [Graph.call, Option.some.injEq] at h
    subst h
    simp [Graph.add_dependency_counter]
  | has_dependency a =>
    simp only [Graph.call, Graph.has_dependency_heap, Option.some.injEq] at h
    subst h
    simp
  | finish_one_dependency a =>
    by_cases hd : (dcheck &&
        !decide ((g a)._complete_dependency.val < (g a)._dependencies.length)) = true
    · simp [Graph.call, Graph.finish_one_dependency, Pipeline.finish_one_dependency, hd] at h
    · have hpre : dcheck = true →
          (g a)._complete_dependency.val < (g a)._dependencies.length := by
        intro hdc
        by_contra hn
        exact hd (by simp [hdc, hn])
      simp only [Graph.call, Graph.finish_on_heap_eq dcheck g a hpre, Option.map,
        Option.some.injEq] at h
      subst h
      by_cases hx : x = a
      · subst hx
        simp
      · have hne : ¬ a = x := fun e => hx e.symm
        simp [Function.update_noteq hx, hne]

/-- C9 (amended): `0 <= counter <= number_of_children` holds for a freshly constructed pipeline
and, when it holds for every pipeline of the heap, it still does after any one operation,
`add_dependency`, `has_dependency`, or `finish_one_dependency` called with
`counter < number_of_children`, and that operation returns. On every heap, invariant or not,
and for every operation that returns (each one does when `DCHECK` is compiled out), no counter
is decreased, except by `finish_one_dependency` called at counter `2 ^ 32 - 1`, which wraps it
to 0. -/
theorem counter_in_range_invariant (dcheck : Bool) (g : Graph n) (op : Graph.Call n) :
    (∀ (pipeline_id : PipelineId) (context : ContextPtr),
      (Pipeline.new pipeline_id context : Pipeline n).counter_in_range)
    ∧ ((∀ x, (g x).counter_in_range) →
        (∀ a, op = Graph.Call.finish_one_dependency a →
          (g a)._complete_dependency.val < (g a)._dependencies.length) →
        ∃ g1, g.call dcheck op = some g1 ∧ ∀ x, (g1 x).counter_in_range)
    ∧ (∃ g1, g.call false op = some g1)
    ∧ (∀ g1, g.call dcheck op = some g1 →
        (∀ x, (op = Graph.Call.finish_one_dependency x →
                (g x)._complete_dependency.val + 1 < UINT32_MOD) →
              (g x)._complete_dependency.val ≤ (g1 x)._complete_dependency.val)
        ∧ (∀ x, op = Graph.Call.finish_one_dependency x →
              (g x)._complete_dependency.val + 1 = UINT32_MOD →
              (g1 x)._complete_dependency.val = 0)) := by
  refine ⟨fun _ _ => ⟨Nat.le_refl 0, Nat.le_refl 0⟩, ?_, ?_, ?_⟩
  · intro hinv hpre
    cases op with
    | add_dependency a b =>
      refine ⟨_, rfl, ?_⟩
      intro x
      have hx := (hinv x).2
      refine ⟨Nat.zero_le _, ?_⟩
      rw [Graph.add_dependency_counter, Graph.add_dependency_dependencies]
      split
      · rw [List.length_append]; omega
      · exact hx
    | has_dependency a =>
      refine ⟨g, ?_, hinv⟩
      simp only [Graph.call, Graph.has_dependency_heap]
    | finish_one_dependency a =>
      have ha := hpre a rfl
      refine ⟨Function.update g a
        { g a with _complete_dependency := uint32_wrap ((g a)._complete_dependency.val + 1) },
        ?_, ?_⟩
      · simp only [Graph.call, Graph.finish_on_heap_eq dcheck g a (fun _ => ha)]
        rfl
      · intro x
        refine ⟨Nat.zero_le _, ?_⟩
        by_cases hx : x = a
        · subst hx
          simp only [Function.update_same, uint32_wrap_val]
          have := Nat.mod_le ((g x)._complete_dependency.val + 1) UINT32_MOD
          omega
        · simp only [Function.update_noteq hx]
          exact (hinv x).2
  · cases op with
    | add_dependency a b => exact ⟨_, rfl⟩
    | has_dependency a => exact ⟨_, rfl⟩
    | finish_one_dependency a =>
      refine ⟨Function.update g a
        { g a with _complete_dependency := uint32_wrap ((g a)._complete_dependency.val + 1) },
        ?_⟩
      simp only [Graph.call, Graph.finish_on_heap_eq false g a (by intro h; cases h)]
      rfl
  · intro g1 h
    refine ⟨?_, ?_⟩
    · intro x hwrap
      rw [Graph.call_counter dcheck g g1 op h x]
      split
      · rename_i hop
        rw [uint32_wrap_val, Nat.mod_eq_of_lt (hwrap hop)]
        omega
      · exact Nat.le_refl _
    · intro x hop hmax
      rw [Graph.call_counter dcheck g g1 op h x, if_pos hop, uint32_wrap_val, hmax, Nat.mod_self]

/-- C9 (witness): pipeline 0 with the single dependency 1 is signalled once; the invariant
holds before and after, and the counter of pipeline 0 does not decrease. -/
theorem counter_in_range_invariant_witness :
    (∀ x, ((Graph.three_fresh.add_dependency 0 1) x).counter_in_range)
    ∧ (∃ g1, (Graph.three_fresh.add_dependency 0 1).call true (Graph.Call.finish_one_dependency 0)
          = some g1
        ∧ ∀ x, (g1 x).counter_in_range)
    ∧ (∃ g1, (Graph.three_fresh.add_dependency 0 1).call false
          (Graph.Call.finish_one_dependency 0) = some g1) :=
  ⟨by decide,
   (counter_in_range_invariant true (Graph.three_fresh.add_dependency 0 1)
      (Graph.Call.finish_one_dependency 0)).2.1 (by decide) (by decide),
   (counter_in_range_invariant true (Graph.three_fresh.add_dependency 0 1)
      (Graph.Call.finish_one_dependency 0)).2.2.1⟩

/-- C10 (counterexample): pipeline 0 gets the dependency 1 and is signalled once, so its
counter is 1; a further `add_dependency` on it is carried out: the dependency list grows from
one entry to two and `has_dependency` returns true again. -/
theorem add_dependency_after_signaling_accepted :
    ∃ g1, (Graph.three_fresh.add_dependency 0 1).finish_one_dependency true 0 = some (true, g1)
      ∧ 0 < (g1 0)._complete_dependency.val
      ∧ (g1 0)._dependencies = [1]
      ∧ ((g1.add_dependency 0 2) 0)._dependencies = [1, 2]
      ∧ ((g1.add_dependency 0 2) 2)._parents = [0]
      ∧ ((g1.add_dependency 0 2).has_dependency 0).1 = true :=
  ⟨_, rfl, by decide, by decide, by decide, by decide, by decide⟩

/-- C10 (amended): `add_dependency` is carried out whatever the counter of the receiver, so also
when it is greater than 0: the argument is appended to the dependency list of the receiver,
whose length, the value the counter is compared with, grows by one; the receiver is appended to
the parent list of the argument; the counter of the receiver is unchanged. -/
theorem add_dependency_ignores_counter (g : Graph n) (self pipeline : Fin n) :
    (g.add_dependency self pipeline self)._dependencies = (g self)._dependencies ++ [pipeline]
    ∧ (g.add_dependency self pipeline self)._dependencies.length
        = (g self)._dependencies.length + 1
    ∧ (g.add_dependency self pipeline pipeline)._parents = (g pipeline)._parents ++ [self]
    ∧ (g.add_dependency self pipeline self)._complete_dependency
        = (g self)._complete_dependency := by
  refine ⟨?_, ?_, ?_, Graph.add_dependency_counter g self pipeline self⟩
  · simp [Graph.add_dependency_dependencies]
  · simp [Graph.add_dependency_dependencies]
  · simp [Graph.add_dependency_parents]


/-! ## Acyclicity: C11 -/

/-- The dependencies of `a` after a sequence of calls are the old ones and the arguments of the
calls that have `a` as receiver. -/
theorem Graph.mem_dependencies_add_dependencies (calls : List (Fin n × Fin n)) :
    ∀ (g : Graph n) (a b : Fin n),
      b ∈ (g.add_dependencies calls a)._dependencies
        ↔ b ∈ (g a)._dependencies ∨ (a, b) ∈ calls := by
  induction calls with
  | nil => intro g a b; simp [Graph.add_dependencies_nil]
  | cons e calls ih =>
    intro g a b
    rw [Graph.add_dependencies_cons, ih, Graph.add_dependency_dependencies]
    obtain ⟨x, y⟩ := e
    by_cases h : a = x
    · subst h
      simp only [if_true, List.mem_append, List.mem_singleton, List.mem_cons, Prod.mk.injEq,
        true_and]
      tauto
    · simp only [if_neg h, List.mem_cons, Prod.mk.injEq, h, false_and, false_or, if_false]

/-- A ranking that decreases along every direct dependency decreases along every transitive one. -/
theorem Graph.rank_lt_of_transitively_depends_on (g : Graph n) (rank : Fin n → Nat)
    (hedge : ∀ a b, g.depends_on a b → rank b < rank a) :
    ∀ a b, g.transitively_depends_on a b → rank b < rank a := by
  intro a b h
  unfold Graph.transitively_depends_on at h
  induction h with
  | single h1 => exact hedge _ _ h1
  | tail _ h2 ih => exact Nat.lt_trans (hedge _ _ h2) ih

/-- C11 (counterexample): on a single fresh pipeline the call `add_dependency` with the
pipeline itself as argument is carried out; afterwards the pipeline is in its own dependency
list, it transitively depends on itself, and no pipeline has zero dependencies. -/
theorem self_dependency_accepted :
    (0 : Fin 1) ∈ ((Graph.one_fresh.add_dependencies [(0, 0)]) 0)._dependencies
    ∧ (Graph.one_fresh.add_dependencies [(0, 0)]).transitively_depends_on 0 0
    ∧ ¬ ∃ x, ((Graph.one_fresh.add_dependencies [(0, 0)]) x)._dependencies = [] := by
  refine ⟨by decide, Relation.TransGen.single (by decide), by decide⟩

/-- C11 (amended): `add_dependency` checks nothing, so the graph is as acyclic as the calls are.
When some ranking of the pipelines puts the receiver of every call strictly above its
argument, then in the heap reached from fresh pipelines by these calls no pipeline
transitively depends on itself, none is in its own dependency list, and, when there is a
pipeline at all, at least one pipeline has zero dependencies. -/
theorem acyclic_when_calls_ranked (ids : Fin n → PipelineId) (contexts : Fin n → ContextPtr)
    (calls : List (Fin n × Fin n)) (rank : Fin n → Nat)
    (hrank : ∀ e ∈ calls, rank e.2 < rank e.1) :
    (∀ a, ¬ ((Graph.fresh ids contexts).add_dependencies calls).transitively_depends_on a a)
    ∧ (∀ a, a ∉ ((Graph.fresh ids contexts).add_dependencies calls a)._dependencies)
    ∧ (0 < n → ∃ a, ((Graph.fresh ids contexts).add_dependencies calls a)._dependencies = []) := by
  have hedge : ∀ a b, ((Graph.fresh ids contexts).add_dependencies calls).depends_on a b →
      rank b < rank a := by
    intro a b h
    unfold Graph.depends_on at h
    rw [Graph.mem_dependencies_add_dependencies] at h
    rcases h with h | h
    · simp [Graph.fresh, Pipeline.new] at h
    · exact hrank (a, b) h
  refine ⟨?_, ?_, ?_⟩
  · intro a h
    exact Nat.lt_irrefl _ (Graph.rank_lt_of_transitively_depends_on _ rank hedge a a h)
  · intro a h
    exact Nat.lt_irrefl _ (hedge a a h)
  · intro hn
    haveI : Nonempty (Fin n) := ⟨⟨0, hn⟩⟩
    obtain ⟨a, _, ha⟩ := Finset.exists_min_image (Finset.univ : Finset (Fin n)) rank
      Finset.univ_nonempty
    refine ⟨a, List.eq_nil_iff_forall_not_mem.mpr ?_⟩
    intro b hb
    have h1 := hedge a b hb
    have h2 := ha b (Finset.mem_univ b)
    omega

/-- C11 (witness): the diamond, ranked by height. -/
theorem acyclic_when_calls_ranked_witness :
    (∀ e ∈ Graph.diamond_calls, Graph.diamond_rank e.2 < Graph.diamond_rank e.1)
    ∧ (∀ a, ¬ (Graph.four_fresh.add_dependencies Graph.diamond_calls).transitively_depends_on a a)
    ∧ (∀ a, a ∉ (Graph.four_fresh.add_dependencies Graph.diamond_calls a)._dependencies)
    ∧ (0 < 4 → ∃ a, (Graph.four_fresh.add_dependencies Graph.diamond_calls a)._dependencies = []) :=
  ⟨by decide,
   acyclic_when_calls_ranked (fun i => Fin.castLE (by decide) i) (fun _ => none)
     Graph.diamond_calls Graph.diamond_rank (by decide)⟩


/-! ## Zero dependencies, late edges and the frame of `add_dependency`: C14 to C16 -/

/-- C14: on a pipeline with zero dependencies the assertion `counter < size` is false whatever
the counter, so with `DCHECK` active every call aborts; `size() - 1` wraps to the largest
`size_t`, which the 32-bit counter never equals, so with `DCHECK` compiled out the call returns
false and stores the counter plus one modulo `2 ^ 32`. No call returns true. -/
theorem finish_one_dependency_without_dependencies (p : Pipeline n)
    (hdeps : p._dependencies.length = 0) :
    ¬ (p._complete_dependency.val < p._dependencies.length)
    ∧ p.finish_one_dependency true = none
    ∧ size_t_sub p._dependencies.length 1 = SIZE_MOD - 1
    ∧ p._complete_dependency.val < SIZE_MOD - 1
    ∧ p.finish_one_dependency false
        = some (false,
                { p with _complete_dependency := uint32_wrap (p._complete_dependency.val + 1) })
    ∧ (uint32_wrap (p._complete_dependency.val + 1)).val
        = (p._complete_dependency.val + 1) % UINT32_MOD
    ∧ ∀ (dcheck : Bool) (r : Bool × Pipeline n),
        p.finish_one_dependency dcheck = some r → r.1 = false := by
  have hlt := p._complete_dependency.isLt
  have hsub : size_t_sub p._dependencies.length 1 = SIZE_MOD - 1 := by
    rw [hdeps]
    exact size_t_sub_one_zero
  have hbelow : p._complete_dependency.val < SIZE_MOD - 1 :=
    Nat.lt_trans hlt (by decide)
  have hne : ¬ p._complete_dependency.val = SIZE_MOD - 1 := Nat.ne_of_lt hbelow
  have hfalse : p.finish_one_dependency false
      = some (false,
          { p with _complete_dependency := uint32_wrap (p._complete_dependency.val + 1) }) := by
    rw [Pipeline.finish_one_dependency_eq false p (by intro h; cases h), hsub,
      decide_eq_false hne]
  have htrue : p.finish_one_dependency true = none := by
    simp [Pipeline.finish_one_dependency, hdeps]
  refine ⟨by omega, htrue, hsub, hbelow, hfalse, rfl, ?_⟩
  · intro dcheck r hr
    cases dcheck
    · rw [hfalse] at hr
      cases hr
      rfl
    · rw [htrue] at hr
      cases hr

/-- C14 (witness): no dependency and counter 5. -/
theorem finish_one_dependency_without_dependencies_witness :
    (Pipeline.with_dependencies 0 5)._dependencies.length = 0
    ∧ (Pipeline.with_dependencies 0 5).finish_one_dependency true = none
    ∧ (Pipeline.with_dependencies 0 5).finish_one_dependency false
        = some (false, Pipeline.with_dependencies 0 6) :=
  ⟨by decide,
   (finish_one_dependency_without_dependencies (Pipeline.with_dependencies 0 5) (by decide)).2.1,
   (finish_one_dependency_without_dependencies (Pipeline.with_dependencies 0 5)
      (by decide)).2.2.2.2.1⟩

/-- C15: the required count is the current length of the dependency list. On a pipeline whose
counter equals that length `has_dependency` is false; one further `add_dependency` is carried
out and appends its argument, after which `has_dependency` is true again and the next
`finish_one_dependency` returns true. -/
theorem add_dependency_rearms_runnable (dcheck : Bool) (g : Graph n) (self pipeline : Fin n)
    (hrun : (g self)._complete_dependency.val = (g self)._dependencies.length) :
    (g.has_dependency self).1 = false
    ∧ (g.add_dependency self pipeline self)._dependencies
        = (g self)._dependencies ++ [pipeline]
    ∧ ((g.add_dependency self pipeline).has_dependency self).1 = true
    ∧ ∃ g1, (g.add_dependency self pipeline).finish_one_dependency dcheck self
        = some (true, g1) := by
  have hlt := (g self)._complete_dependency.isLt
  have hdeps : (g.add_dependency self pipeline self)._dependencies
      = (g self)._dependencies ++ [pipeline] := by
    simp [Graph.add_dependency_dependencies]
  have hlen : (g.add_dependency self pipeline self)._dependencies.length
      = (g self)._dependencies.length + 1 := by
    rw [hdeps, List.length_append]
    rfl
  have hc := Graph.add_dependency_counter g self pipeline self
  refine ⟨?_, hdeps, ?_, ?_⟩
  · simp [Graph.has_dependency, Pipeline.has_dependency, hrun]
  · simp [Graph.has_dependency, Pipeline.has_dependency, hlen, hc, hrun]
  · refine ⟨Function.update (g.add_dependency self pipeline) self
      { g.add_dependency self pipeline self with
        _complete_dependency :=
          uint32_wrap ((g.add_dependency self pipeline self)._complete_dependency.val + 1) }, ?_⟩
    rw [Graph.finish_on_heap_eq dcheck _ self (by intro _; rw [hlen, hc]; omega)]
    congr 2
    rw [hlen, hc, size_t_sub_one _ (by omega) (by simp only [UINT32_MOD, SIZE_MOD] at *; omega),
      decide_eq_true_iff]
    omega

/-- C15 (witness): pipeline 0 had the single dependency 1 and was signalled once; a second
dependency is added and the next signal returns true again. -/
theorem add_dependency_rearms_runnable_witness :
    (Graph.signalled_once 0)._complete_dependency.val
        = (Graph.signalled_once 0)._dependencies.length
    ∧ (Graph.signalled_once.has_dependency 0).1 = false
    ∧ ((Graph.signalled_once.add_dependency 0 2).has_dependency 0).1 = true
    ∧ ∃ g1, (Graph.signalled_once.add_dependency 0 2).finish_one_dependency true 0
        = some (true, g1) :=
  ⟨by decide,
   (add_dependency_rearms_runnable true Graph.signalled_once 0 2 (by decide)).1,
   (add_dependency_rearms_runnable true Graph.signalled_once 0 2 (by decide)).2.2⟩


/-- Outside the receiver and the argument `add_dependency` leaves every object as it is. -/
theorem Graph.add_dependency_other (g : Graph n) (a b x : Fin n) (hxa : x ≠ a) (hxb : x ≠ b) :
    g.add_dependency a b x = g x := by
  simp [Graph.add_dependency, Function.update, hxa, hxb]

/-- The operator chain, sink, profile, id and context of every pipeline survive
`add_dependency`. -/
theorem Graph.add_dependency_structure (g : Graph n) (a b x : Fin n) :
    (g.add_dependency a b x)._source = (g x)._source
    ∧ (g.add_dependency a b x)._operators = (g x)._operators
    ∧ (g.add_dependency a b x)._sink = (g x)._sink
    ∧ (g.add_dependency a b x)._pipeline_profile = (g x)._pipeline_profile
    ∧ (g.add_dependency a b x)._pipeline_id = (g x)._pipeline_id
    ∧ (g.add_dependency a b x)._context = (g x)._context := by
  by_cases hxa : x = a <;> by_cases hxb : x = b <;>
    simp [Graph.add_dependency, Function.update, hxa, hxb] <;> aesop

/-- C16: `a.add_dependency(b)` appends `b` at the end of the dependency list of `a` and `a` at
the end of the parent list of `b`, whatever the lists already hold, and changes nothing else:
the counters of `a` and `b`, the parent list of `a` and the dependency list of `b` when the two
are distinct, the operator chain, sink, profile, id and context of every pipeline, and every
field of every other pipeline stay as they were. -/
theorem add_dependency_frame (g : Graph n) (a b : Fin n) :
    (g.add_dependency a b a)._dependencies = (g a)._dependencies ++ [b]
    ∧ (g.add_dependency a b b)._parents = (g b)._parents ++ [a]
    ∧ (g.add_dependency a b a)._complete_dependency = (g a)._complete_dependency
    ∧ (g.add_dependency a b b)._complete_dependency = (g b)._complete_dependency
    ∧ (a ≠ b → (g.add_dependency a b a)._parents = (g a)._parents
        ∧ (g.add_dependency a b b)._dependencies = (g b)._dependencies)
    ∧ (∀ x, (g.add_dependency a b x)._source = (g x)._source
        ∧ (g.add_dependency a b x)._operators = (g x)._operators
        ∧ (g.add_dependency a b x)._sink = (g x)._sink
        ∧ (g.add_dependency a b x)._pipeline_profile = (g x)._pipeline_profile
        ∧ (g.add_dependency a b x)._pipeline_id = (g x)._pipeline_id
        ∧ (g.add_dependency a b x)._context = (g x)._context)
    ∧ (∀ x, x ≠ a → x ≠ b → g.add_dependency a b x = g x) := by
  refine ⟨?_, ?_, Graph.add_dependency_counter g a b a, Graph.add_dependency_counter g a b b,
    ?_, Graph.add_dependency_structure g a b, Graph.add_dependency_other g a b⟩
  · simp [Graph.add_dependency_dependencies]
  · simp [Graph.add_dependency_parents]
  · intro hab
    have hba : b ≠ a := fun h => hab h.symm
    simp [Graph.add_dependency_dependencies, Graph.add_dependency_parents, hab, hba]

/-- C16 (witness): in the diamond, R (address 2) gets the dependency S (address 3); the lists
of P keep their order, and an entry already present is appended once more when the same call
is repeated. -/
theorem add_dependency_frame_witness :
    ((2 : Fin 4) ≠ 3)
    ∧ ((Graph.four_fresh.add_dependencies [(0, 1), (0, 2), (1, 3)]).add_dependency 2 3 2)._dependencies
        = [3]
    ∧ ((Graph.four_fresh.add_dependencies [(0, 1), (0, 2), (1, 3)]).add_dependency 2 3 3)._parents
        = [1, 2]
    ∧ ((Graph.four_fresh.add_dependencies [(0, 1), (0, 2), (1, 3)]).add_dependency 2 3 0)
        = (Graph.four_fresh.add_dependencies [(0, 1), (0, 2), (1, 3)]) 0
    ∧ ((Graph.four_fresh.add_dependencies Graph.diamond_calls).add_dependency 2 3 2)._dependencies
        = [3, 3] :=
  ⟨by decide,
   (add_dependency_frame (Graph.four_fresh.add_dependencies [(0, 1), (0, 2), (1, 3)]) 2 3).1,
   (add_dependency_frame (Graph.four_fresh.add_dependencies [(0, 1), (0, 2), (1, 3)]) 2 3).2.1,
   (add_dependency_frame (Graph.four_fresh.add_dependencies [(0, 1), (0, 2), (1, 3)])
      2 3).2.2.2.2.2.2 0 (by decide) (by decide),
   (add_dependency_frame (Graph.four_fresh.add_dependencies Graph.diamond_calls) 2 3).1⟩


/-! ## Structural assembly and `prepare`: C13 -/

/-- What one call of the structural assembly keeps and what it establishes. -/
theorem Pipeline.after_call_facts (p : Pipeline n) (c : Pipeline.BuildCall) :
    (p.after_call c)._pipeline_profile = p._pipeline_profile
    ∧ (p._source.isSome = true → (p.after_call c)._source.isSome = true)
    ∧ (p._sink.isSome = true → (p.after_call c)._sink.isSome = true)
    ∧ ((p._source.isSome = true → p._operators ≠ []) →
        (p.after_call c)._source.isSome = true → (p.after_call c)._operators ≠ [])
    ∧ ((∃ s, c = Pipeline.BuildCall.set_source s) → (p.after_call c)._source.isSome = true)
    ∧ ((∃ k, c = Pipeline.BuildCall.set_sink k) → p._source.isSome = true →
        (p.after_call c)._sink.isSome = true)
    ∧ ((∀ k, c ≠ Pipeline.BuildCall.set_sink k) → (p.after_call c)._sink = p._sink) := by
  cases c with
  | set_source t =>
    cases hs : p._source <;>
      simp [Pipeline.after_call, Pipeline.build_call, Pipeline.set_source, hs]
  | add_operator t =>
    simp [Pipeline.after_call, Pipeline.build_call, Pipeline.add_operator]
  | set_sink t =>
    cases hs : p._source <;> cases hk : p._sink <;>
      simp [Pipeline.after_call, Pipeline.build_call, Pipeline.set_sink, hs, hk]

/-- The first call is run first. -/
theorem Pipeline.after_calls_cons (p : Pipeline n) (c : Pipeline.BuildCall)
    (calls : List Pipeline.BuildCall) :
    p.after_calls (c :: calls) = (p.after_call c).after_calls calls := rfl

/-- Two sequences run one after the other. -/
theorem Pipeline.after_calls_append (p : Pipeline n) (xs ys : List Pipeline.BuildCall) :
    p.after_calls (xs ++ ys) = (p.after_calls xs).after_calls ys := by
  simp [Pipeline.after_calls, List.foldl_append]

/-- What a sequence of calls of the structural assembly keeps. -/
theorem Pipeline.after_calls_facts (calls : List Pipeline.BuildCall) : ∀ p : Pipeline n,
    (p.after_calls calls)._pipeline_profile = p._pipeline_profile
    ∧ (p._source.isSome = true → (p.after_calls calls)._source.isSome = true)
    ∧ (p._sink.isSome = true → (p.after_calls calls)._sink.isSome = true)
    ∧ ((p._source.isSome = true → p._operators ≠ []) →
        (p.after_calls calls)._source.isSome = true → (p.after_calls calls)._operators ≠ [])
    ∧ ((∀ k, Pipeline.BuildCall.set_sink k ∉ calls) → (p.after_calls calls)._sink = p._sink) := by
  induction calls with
  | nil => intro p; exact ⟨rfl, id, id, id, fun _ => rfl⟩
  | cons c calls ih =>
    intro p
    obtain ⟨h1, h2, h3, h4, _, _, h7⟩ := Pipeline.after_call_facts p c
    obtain ⟨i1, i2, i3, i4, i5⟩ := ih (p.after_call c)
    rw [Pipeline.after_calls_cons]
    refine ⟨i1.trans h1, fun h => i2 (h2 h), fun h => i3 (h3 h), fun h => i4 (h4 h), ?_⟩
    intro hno
    rw [i5 (fun k hk => hno k (List.mem_cons_of_mem _ hk)),
      h7 (fun k hk => hno k (by rw [hk]; exact List.mem_cons_self _ _))]

/-- On a pipeline with a source, a sink and a non-empty `_operators`, the chain has length at
least 2; the first `prepare` succeeds when no profile is allocated, and a second one is
refused with `UsageError`. -/
theorem Pipeline.prepare_of_assembled (p : Pipeline n) (state profile : Nat)
    (hsource : p._source.isSome = true) (hsink : p._sink.isSome = true)
    (hops : p._operators ≠ []) (hprofile : p._pipeline_profile = none) :
    2 ≤ p.chain.length
    ∧ ∃ q, p.prepare state profile = Except.ok q
        ∧ ∀ state2 profile2, q.prepare state2 profile2 = Except.error Error.UsageError := by
  obtain ⟨t, ht⟩ := Option.isSome_iff_exists.mp hsink
  obtain ⟨u, hu⟩ := Option.isSome_iff_exists.mp hsource
  obtain ⟨o, os, ho⟩ := List.exists_cons_of_ne_nil hops
  refine ⟨?_, { p with _pipeline_profile := some profile }, ?_, ?_⟩
  · simp [Pipeline.chain, ht, ho]
  · simp [Pipeline.prepare, Pipeline.chain, ht, hu, ho, hprofile]
  · intro state2 profile2
    simp [Pipeline.prepare, Pipeline.chain, ht, hu, ho]

/-- C13: start from a pipeline whose structural fields are as the constructor leaves them, a
freshly constructed one in particular, and run any sequence of `set_source`, `add_operator`
and `set_sink` calls. When the sequence holds a `set_source` call and later a `set_sink` call,
the chain has length at least 2 and `prepare` succeeds (and a second `prepare` is then refused
with `UsageError`). When the sequence holds no `set_sink` call, `prepare` fails with
`StructureError`. -/
theorem prepare_after_source_and_sink (p : Pipeline n) (state profile : Nat)
    (calls : List Pipeline.BuildCall) :
    (∀ (pipeline_id : PipelineId) (context : ContextPtr),
      (Pipeline.new pipeline_id context : Pipeline n).unassembled
        = Pipeline.new pipeline_id context)
    ∧ (∀ pre mid post s k,
        calls = pre ++ Pipeline.BuildCall.set_source s
                  :: (mid ++ Pipeline.BuildCall.set_sink k :: post) →
        2 ≤ (p.unassembled.after_calls calls).chain.length
        ∧ ∃ q, (p.unassembled.after_calls calls).prepare state profile = Except.ok q
            ∧ ∀ state2 profile2, q.prepare state2 profile2 = Except.error Error.UsageError)
    ∧ ((∀ k, Pipeline.BuildCall.set_sink k ∉ calls) →
        (p.unassembled.after_calls calls).prepare state profile
          = Except.error Error.StructureError) := by
  refine ⟨fun _ _ => rfl, ?_, ?_⟩
  · intro pre mid post s k hcalls
    subst hcalls
    rw [Pipeline.after_calls_append, Pipeline.after_calls_cons, Pipeline.after_calls_append,
      Pipeline.after_calls_cons]
    obtain ⟨a1, _, _, a4, _⟩ := Pipeline.after_calls_facts pre p.unassembled
    obtain ⟨b1, _, _, b4, b5, _, _⟩ := Pipeline.after_call_facts (p.unassembled.after_calls pre)
      (Pipeline.BuildCall.set_source s)
    obtain ⟨c1, c2, _, c4, _⟩ := Pipeline.after_calls_facts mid
      ((p.unassembled.after_calls pre).after_call (Pipeline.BuildCall.set_source s))
    obtain ⟨d1, d2, _, d4, _, d6, _⟩ := Pipeline.after_call_facts
      (((p.unassembled.after_calls pre).after_call
        (Pipeline.BuildCall.set_source s)).after_calls mid)
      (Pipeline.BuildCall.set_sink k)
    obtain ⟨e1, e2, e3, e4, _⟩ := Pipeline.after_calls_facts post
      ((((p.unassembled.after_calls pre).after_call
        (Pipeline.BuildCall.set_source s)).after_calls mid).after_call
          (Pipeline.BuildCall.set_sink k))
    have hsrc2 := c2 (b5 ⟨s, rfl⟩)
    have hops0 : p.unassembled._source.isSome = true → p.unassembled._operators ≠ [] := by
      intro h
      simp [Pipeline.unassembled] at h
    have hops := e4 (d4 (c4 (b4 (a4 hops0)))) (e2 (d2 hsrc2))
    have hprof : _ = p.unassembled._pipeline_profile :=
      e1.trans (d1.trans (c1.trans (b1.trans a1)))
    exact Pipeline.prepare_of_assembled _ state profile (e2 (d2 hsrc2))
      (e3 (d6 ⟨k, rfl⟩ hsrc2)) hops hprof
  · intro hno
    obtain ⟨_, _, _, _, h5⟩ := Pipeline.after_calls_facts calls p.unassembled
    have hsink : (p.unassembled.after_calls calls)._sink = none := h5 hno
    simp [Pipeline.prepare, hsink]

/-- C13 (witness): a fresh pipeline gets the source 10, the operator 11 and the sink 12, and
`prepare` succeeds; with the source and the operator only, `prepare` fails with
`StructureError`. -/
theorem prepare_after_source_and_sink_witness :
    (2 ≤ ((Pipeline.new 0 none : Pipeline 2).unassembled.after_calls
          [Pipeline.BuildCall.set_source 10, Pipeline.BuildCall.add_operator 11,
           Pipeline.BuildCall.set_sink 12]).chain.length
      ∧ ∃ q, ((Pipeline.new 0 none : Pipeline 2).unassembled.after_calls
          [Pipeline.BuildCall.set_source 10, Pipeline.BuildCall.add_operator 11,
           Pipeline.BuildCall.set_sink 12]).prepare 0 7 = Except.ok q
        ∧ ∀ state2 profile2, q.prepare state2 profile2 = Except.error Error.UsageError)
    ∧ (∀ k, Pipeline.BuildCall.set_sink k ∉
          [Pipeline.BuildCall.set_source 10, Pipeline.BuildCall.add_operator 11])
    ∧ ((Pipeline.new 0 none : Pipeline 2).unassembled.after_calls
          [Pipeline.BuildCall.set_source 10, Pipeline.BuildCall.add_operator 11]).prepare 0 7
        = Except.error Error.StructureError :=
  ⟨(prepare_after_source_and_sink (Pipeline.new 0 none : Pipeline 2) 0 7
      [Pipeline.BuildCall.set_source 10, Pipeline.BuildCall.add_operator 11,
       Pipeline.BuildCall.set_sink 12]).2.1 [] [Pipeline.BuildCall.add_operator 11] [] 10 12 rfl,
   by simp,
   (prepare_after_source_and_sink (Pipeline.new 0 none : Pipeline 2) 0 7
      [Pipeline.BuildCall.set_source 10, Pipeline.BuildCall.add_operator 11]).2.2 (by simp)⟩

/-! ## Interleaved calls of `finish_one_dependency`: C12 -/

/-- A schedule is run step by step. -/
theorem Concurrent.run_append_singleton {k : Nat} (dcheck : Bool) (s : Concurrent n k)
    (schedule : List (Fin k)) (t : Fin k) :
    s.run dcheck (schedule ++ [t])
      = (s.run dcheck schedule).bind (fun s1 => s1.step dcheck t) := by
  simp [Concurrent.run, List.foldl_append]

/-- A duplicate-free list of threads that misses one thread is shorter than `k`. -/
theorem length_lt_of_nodup_of_not_mem {k : Nat} (ids : List (Fin k)) (t : Fin k)
    (hn : ids.Nodup) (ht : t ∉ ids) : ids.length < k := by
  have h : (t :: ids).Nodup := List.nodup_cons.mpr ⟨ht, hn⟩
  have h2 := List.Nodup.length_le_card h
  simp only [List.length_cons, Fintype.card_fin] at h2
  omega

/-- A duplicate-free list of all threads has length `k`. -/
theorem length_eq_of_nodup_of_mem {k : Nat} (ids : List (Fin k))
    (hn : ids.Nodup) (hall : ∀ t, t ∈ ids) : ids.length = k := by
  have h : ids.toFinset = Finset.univ := by
    ext t
    simp [hall t]
  rw [← List.toFinset_card_of_nodup hn, h, Finset.card_univ, Fintype.card_fin]

/-- Occurrences of `t` after one more step of `a`. -/
theorem count_append_singleton {k : Nat} (l : List (Fin k)) (a t : Fin k) :
    (l ++ [a]).count t = l.count t + if a = t then 1 else 0 := by
  rw [List.count_append, List.count_singleton]
  by_cases h : a = t
  · subst h; simp
  · have h2 : ¬ t = a := fun e => h e.symm
    simp [h, h2]

/-- The `fetch_add` step when the shared counter holds the number `l` of returned calls
modulo `2 ^ 32`. -/
theorem Concurrent.fetch_add_eq {k : Nat} (p : Pipeline n) (s : Concurrent n k) (a : Fin k)
    (hp : s.pipeline = { p with _complete_dependency := uint32_wrap s.completed.length }) :
    s.fetch_add a = some
      { pipeline :=
          { p with _complete_dependency := uint32_wrap (s.completed.length + 1) }
        threads := Function.update s.threads a
          (Thread.returned (decide (s.completed.length % UINT32_MOD
            = size_t_sub p._dependencies.length 1)))
        completed := s.completed ++
          [(a, decide (s.completed.length % UINT32_MOD
            = size_t_sub p._dependencies.length 1))] } := by
  unfold Concurrent.fetch_add
  rw [Pipeline.finish_one_dependency_eq false s.pipeline (by intro h; cases h), hp]
  simp only [uint32_wrap_val]
  congr 3
  apply Fin.ext
  simp only [uint32_wrap_val, UINT32_MOD]
  omega

/-- Every schedule in which no thread takes more steps than its call has runs without abort,
and at its end: the shared counter holds the number of returned calls modulo `2 ^ 32`; the
returned values, in the order of the `fetch_add` steps, are those of the successive
pre-increment values; every thread has returned at most once; and the progress of every thread
is the number of its steps in the schedule. -/
theorem Concurrent.run_schedule {k : Nat} (dcheck : Bool) (p : Pipeline n)
    (hc : p._complete_dependency.val = 0) (hdeps : p._dependencies.length = k) :
    ∀ schedule : List (Fin k),
      (∀ t, schedule.count t ≤ Concurrent.steps_per_call dcheck) →
      ∃ st : Concurrent n k, (Concurrent.init p).run dcheck schedule = some st
        ∧ st.pipeline = { p with _complete_dependency := uint32_wrap st.completed.length }
        ∧ st.completed.map Prod.snd
            = (List.range st.completed.length).map
                (fun i => decide (i % UINT32_MOD = size_t_sub p._dependencies.length 1))
        ∧ (st.completed.map Prod.fst).Nodup
        ∧ ∀ t, (st.threads t = Thread.start ∧ schedule.count t = 0
                  ∧ t ∉ st.completed.map Prod.fst)
              ∨ (st.threads t = Thread.checked ∧ dcheck = true ∧ schedule.count t = 1
                  ∧ t ∉ st.completed.map Prod.fst)
              ∨ (∃ b, st.threads t = Thread.returned b
                  ∧ schedule.count t = Concurrent.steps_per_call dcheck
                  ∧ (t, b) ∈ st.completed) := by
  intro schedule
  induction schedule using List.reverseRecOn with
  | nil =>
    intro _
    refine ⟨Concurrent.init p, rfl, ?_, rfl, List.nodup_nil, ?_⟩
    · simp only [Concurrent.init, List.length_nil]
      have : uint32_wrap 0 = p._complete_dependency := by
        apply Fin.ext
        rw [hc]
        rfl
      rw [this]
    · intro t
      exact Or.inl ⟨rfl, rfl, by simp [Concurrent.init]⟩
  | append_singleton l a ih =>
    intro hcount
    have hcount_l : ∀ t, l.count t ≤ Concurrent.steps_per_call dcheck := by
      intro t
      have := hcount t
      rw [count_append_singleton] at this
      omega
    obtain ⟨st, hrun, hpipe, hres, hnodup, hthreads⟩ := ih hcount_l
    have hcount_a : l.count a < Concurrent.steps_per_call dcheck := by
      have := hcount a
      rw [count_append_singleton, if_pos rfl] at this
      omega
    rw [Concurrent.run_append_singleton, hrun]
    simp only [Option.bind]
    -- the state after a `fetch_add` step of `a`, when `a` has not returned yet
    have hfetch : a ∉ st.completed.map Prod.fst →
        l.count a + 1 = Concurrent.steps_per_call dcheck →
        ∃ st1 : Concurrent n k, st.fetch_add a = some st1
          ∧ st1.pipeline = { p with _complete_dependency := uint32_wrap st1.completed.length }
          ∧ st1.completed.map Prod.snd
              = (List.range st1.completed.length).map
                  (fun i => decide (i % UINT32_MOD = size_t_sub p._dependencies.length 1))
          ∧ (st1.completed.map Prod.fst).Nodup
          ∧ ∀ t, (st1.threads t = Thread.start ∧ (l ++ [a]).count t = 0
                    ∧ t ∉ st1.completed.map Prod.fst)
                ∨ (st1.threads t = Thread.checked ∧ dcheck = true ∧ (l ++ [a]).count t = 1
                    ∧ t ∉ st1.completed.map Prod.fst)
                ∨ (∃ b, st1.threads t = Thread.returned b
                    ∧ (l ++ [a]).count t = Concurrent.steps_per_call dcheck
                    ∧ (t, b) ∈ st1.completed) := by
      intro hmem hsteps
      refine ⟨_, Concurrent.fetch_add_eq p st a hpipe, ?_, ?_, ?_, ?_⟩
      · simp only [List.length_append, List.length_singleton]
      · simp only [List.length_append, List.length_singleton, List.map_append, List.map_cons,
          List.map_nil, List.range_succ, hres]
      · simp only [List.map_append, List.map_cons, List.map_nil]
        rw [List.nodup_append]
        refine ⟨hnodup, List.nodup_singleton a, ?_⟩
        intro x hx hx2
        rw [List.mem_singleton] at hx2
        subst hx2
        exact hmem hx
      · intro t
        by_cases hta : t = a
        · subst hta
          refine Or.inr (Or.inr ⟨decide (st.completed.length % UINT32_MOD
            = size_t_sub p._dependencies.length 1), by simp, ?_, by simp⟩)
          rw [count_append_singleton, if_pos rfl]
          exact hsteps
        · have hat : ¬ a = t := fun e => hta e.symm
          have hcnt : (l ++ [a]).count t = l.count t := by
            rw [count_append_singleton, if_neg hat]
            rfl
          have hmem_iff : t ∈ List.map Prod.fst
              (st.completed ++ [(a, decide (st.completed.length % UINT32_MOD
                = size_t_sub p._dependencies.length 1))]) ↔ t ∈ st.completed.map Prod.fst := by
            simp [hta]
          rw [hcnt]
          simp only [Function.update_noteq hta, hmem_iff]
          rcases hthreads t with h | h | ⟨b, h1, h2, h3⟩
          · exact Or.inl h
          · exact Or.inr (Or.inl h)
          · exact Or.inr (Or.inr ⟨b, h1, h2, List.mem_append_left _ h3⟩)
    rcases hthreads a with ⟨hs, hcnt, hmem⟩ | ⟨hs, hd, hcnt, hmem⟩ | ⟨b, _, hcnt, _⟩
    · cases hdc : dcheck
      · -- release build: the single step is the `fetch_add`
        have hstep : st.step false a = st.fetch_add a := by
          simp [Concurrent.step, hs]
        rw [hstep]
        subst hdc
        exact hfetch hmem (by rw [hcnt]; rfl)
      · -- debug build: the first step is the load of the assertion
        subst hdc
        have hlen : st.completed.length < k := by
          have := length_lt_of_nodup_of_not_mem _ a hnodup hmem
          simpa using this
        have hlt : st.pipeline._complete_dependency.val < st.pipeline._dependencies.length := by
          rw [hpipe]
          simp only [uint32_wrap_val, hdeps]
          have := Nat.mod_le st.completed.length UINT32_MOD
          omega
        have hstep : st.step true a
            = some { st with threads := Function.update st.threads a Thread.checked } := by
          simp [Concurrent.step, hs, Concurrent.dcheck_load, hlt]
        rw [hstep]
        refine ⟨_, rfl, hpipe, hres, hnodup, ?_⟩
        intro t
        by_cases hta : t = a
        · subst hta
          refine Or.inr (Or.inl ⟨by simp, rfl, ?_, hmem⟩)
          rw [count_append_singleton, if_pos rfl, hcnt]
        · have hat : ¬ a = t := fun e => hta e.symm
          have hcnt2 : (l ++ [a]).count t = l.count t := by
            rw [count_append_singleton, if_neg hat]
            rfl
          rw [hcnt2]
          simpa [Function.update_noteq hta] using hthreads t
    · subst hd
      have hstep : st.step true a = st.fetch_add a := by
        simp [Concurrent.step, hs]
      rw [hstep]
      exact hfetch hmem (by rw [hcnt]; rfl)
    · omega

/-- A schedule in which every thread takes all the steps of its call runs without abort, every
thread returns, and the returned values are those of the pre-increment values `0` to `k - 1`
in the order of the `fetch_add` steps. -/
theorem Concurrent.run_complete {k : Nat} (dcheck : Bool) (p : Pipeline n)
    (hc : p._complete_dependency.val = 0) (hdeps : p._dependencies.length = k)
    (schedule : List (Fin k))
    (hsched : ∀ t, schedule.count t = Concurrent.steps_per_call dcheck) :
    ∃ st : Concurrent n k, (Concurrent.init p).run dcheck schedule = some st
      ∧ st.completed.length = k
      ∧ st.completed.map Prod.snd
          = (List.range k).map (fun i => decide (i % UINT32_MOD = size_t_sub k 1))
      ∧ (st.completed.map Prod.fst).Nodup
      ∧ ∀ t, ∃ b, st.threads t = Thread.returned b ∧ (t, b) ∈ st.completed := by
  obtain ⟨st, hrun, _, hres, hnodup, hthreads⟩ :=
    Concurrent.run_schedule dcheck p hc hdeps schedule (fun t => Nat.le_of_eq (hsched t))
  have hall : ∀ t, ∃ b, st.threads t = Thread.returned b ∧ (t, b) ∈ st.completed := by
    intro t
    have hpos : 0 < Concurrent.steps_per_call dcheck := by
      unfold Concurrent.steps_per_call
      split <;> decide
    rcases hthreads t with ⟨_, h0, _⟩ | ⟨_, hd, h1, _⟩ | ⟨b, h1, _, h3⟩
    · rw [hsched t] at h0
      omega
    · rw [hsched t, hd] at h1
      simp [Concurrent.steps_per_call] at h1
    · exact ⟨b, h1, h3⟩
  have hlen : st.completed.length = k := by
    have h := length_eq_of_nodup_of_mem (st.completed.map Prod.fst) hnodup (by
      intro t
      obtain ⟨b, _, hb⟩ := hall t
      exact List.mem_map.mpr ⟨(t, b), hb, rfl⟩)
    simpa using h
  refine ⟨st, hrun, hlen, ?_, hnodup, hall⟩
  rw [hres, hlen, hdeps]

/-- Up to `2 ^ 32` dependencies only the pre-increment value `k - 1` compares equal. -/
theorem results_within_capacity (k : Nat) (hk : 0 < k) (hk32 : k ≤ UINT32_MOD) :
    (List.range k).map (fun i => decide (i % UINT32_MOD = size_t_sub k 1))
      = List.replicate (k - 1) false ++ [true] := by
  obtain ⟨m, rfl⟩ : ∃ m, k = m + 1 := ⟨k - 1, by omega⟩
  rw [Nat.add_sub_cancel, ← map_range_last m]
  apply List.map_congr_left
  intro i hi
  rw [List.mem_range] at hi
  rw [size_t_sub_one _ hk (by simp only [UINT32_MOD, SIZE_MOD] at *; omega)]
  have : i % UINT32_MOD = i := by
    simp only [UINT32_MOD] at *
    omega
  rw [this]
  rfl

/-- Beyond `2 ^ 32` dependencies no pre-increment value compares equal. -/
theorem results_beyond_capacity (k : Nat) (hk32 : UINT32_MOD < k) (hk64 : k ≤ SIZE_MOD) :
    (List.range k).map (fun i => decide (i % UINT32_MOD = size_t_sub k 1))
      = List.replicate k false := by
  rw [List.eq_replicate_iff]
  refine ⟨by simp, ?_⟩
  intro b hb
  simp only [List.mem_map, List.mem_range] at hb
  obtain ⟨i, _, rfl⟩ := hb
  rw [size_t_sub_one _ (by omega) hk64]
  have := Nat.mod_lt i (show 0 < UINT32_MOD by decide)
  simp only [decide_eq_false_iff_not]
  omega

/-- With more than `2 ^ 32` threads and dependencies every call returns false, whatever the
schedule. -/
theorem Concurrent.run_beyond_capacity {k : Nat} (dcheck : Bool) (p : Pipeline n)
    (hk32 : UINT32_MOD < k) (hk64 : k ≤ SIZE_MOD)
    (hc : p._complete_dependency.val = 0) (hdeps : p._dependencies.length = k)
    (schedule : List (Fin k))
    (hsched : ∀ t, schedule.count t = Concurrent.steps_per_call dcheck) :
    ∃ st : Concurrent n k, (Concurrent.init p).run dcheck schedule = some st
      ∧ ∀ t, st.threads t = Thread.returned false := by
  obtain ⟨st, hrun, _, hres, _, hall⟩ := Concurrent.run_complete dcheck p hc hdeps schedule hsched
  refine ⟨st, hrun, ?_⟩
  intro t
  obtain ⟨b, hb1, hb2⟩ := hall t
  have hmem : b ∈ st.completed.map Prod.snd := List.mem_map.mpr ⟨(t, b), hb2, rfl⟩
  rw [hres, results_beyond_capacity k hk32 hk64] at hmem
  rw [List.eq_of_mem_replicate hmem] at hb1
  exact hb1

/-- C12 (counterexample): `2 ^ 32 + 1` dependencies and `2 ^ 32 + 1` threads, `DCHECK` compiled
out, the threads taking their single step in the order of their numbers: every call returns
false, none returns true. And with zero dependencies there is no call at all, so none returns
true. -/
theorem interleaved_calls_none_true :
    (∀ t, (List.finRange 4294967297).count t = Concurrent.steps_per_call false)
    ∧ (∃ st : Concurrent 2 4294967297,
        (Concurrent.init (Pipeline.with_dependencies 4294967297 0)).run false
            (List.finRange 4294967297) = some st
        ∧ ∀ t, st.threads t = Thread.returned false)
    ∧ (∃ st : Concurrent 2 0,
        (Concurrent.init (Pipeline.with_dependencies 0 0)).run true [] = some st
        ∧ ¬ ∃ t, st.threads t = Thread.returned true) := by
  have hsched : ∀ t, (List.finRange 4294967297).count t = Concurrent.steps_per_call false :=
    fun t => List.count_eq_one_of_mem (List.nodup_finRange _) (List.mem_finRange t)
  refine ⟨hsched, ?_, ⟨_, rfl, ?_⟩⟩
  · exact Concurrent.run_beyond_capacity false (Pipeline.with_dependencies 4294967297 0)
      (by decide) (by decide) rfl (Pipeline.with_dependencies_length _ _) _ hsched
  · rintro ⟨t, _⟩
    exact t.elim0

/-- C12 (amended): for `0 < k <= 2 ^ 32`, on a pipeline with `k` dependencies and counter 0, let
`k` threads each make one call of `finish_one_dependency`. Under every interleaving of the
atomic steps of these calls (the load of the assertion and the `fetch_add` with `DCHECK`, the
`fetch_add` alone without it) no assertion fails, every call returns, precisely one call
returns true, and its `fetch_add` comes after the `fetch_add` of every other call. -/
theorem finish_one_dependency_interleaved {k : Nat} (dcheck : Bool) (p : Pipeline n)
    (schedule : List (Fin k))
    (hk : 0 < k) (hk32 : k ≤ UINT32_MOD)
    (hdeps : p._dependencies.length = k) (hc : p._complete_dependency.val = 0)
    (hsched : ∀ t, schedule.count t = Concurrent.steps_per_call dcheck) :
    ∃ (st : Concurrent n k) (front : List (Fin k × Bool)) (last : Fin k),
      (Concurrent.init p).run dcheck schedule = some st
      ∧ st.completed = front ++ [(last, true)]
      ∧ (∀ e ∈ front, e.2 = false)
      ∧ st.threads last = Thread.returned true
      ∧ ∀ t, t ≠ last → st.threads t = Thread.returned false ∧ (t, false) ∈ front := by
  obtain ⟨st, hrun, hlen, hres, hnodup, hall⟩ :=
    Concurrent.run_complete dcheck p hc hdeps schedule hsched
  rw [results_within_capacity k hk hk32] at hres
  have hne : st.completed ≠ [] := by
    intro h
    rw [h] at hlen
    simp at hlen
    omega
  have hsplit := List.dropLast_append_getLast hne
  generalize st.completed.getLast hne = e at hsplit
  obtain ⟨last, b⟩ := e
  rw [← hsplit, List.map_append, List.map_cons, List.map_nil] at hres hnodup
  obtain ⟨hfront, hb⟩ := List.append_inj' hres rfl
  simp only [List.cons.injEq, and_true] at hb
  subst hb
  have hfalse : ∀ e ∈ st.completed.dropLast, e.2 = false := by
    intro e he
    have hmem : e.2 ∈ st.completed.dropLast.map Prod.snd := List.mem_map.mpr ⟨e, he, rfl⟩
    rw [hfront] at hmem
    exact List.eq_of_mem_replicate hmem
  have hnotin : last ∉ st.completed.dropLast.map Prod.fst := by
    intro h
    have := (List.nodup_append.mp hnodup).2.2 h (List.mem_singleton_self last)
    exact this
  have hin : ∀ t b, (t, b) ∈ st.completed →
      (t, b) ∈ st.completed.dropLast ∨ (t, b) = (last, true) := by
    intro t b h
    rw [← hsplit, List.mem_append, List.mem_singleton] at h
    exact h
  refine ⟨st, st.completed.dropLast, last, hrun, hsplit.symm, hfalse, ?_, ?_⟩
  · obtain ⟨b, hb1, hb2⟩ := hall last
    rcases hin last b hb2 with h | h
    · exact absurd (List.mem_map.mpr ⟨(last, b), h, rfl⟩) hnotin
    · simp only [Prod.mk.injEq, true_and] at h
      rw [h] at hb1
      exact hb1
  · intro t ht
    obtain ⟨b, hb1, hb2⟩ := hall t
    rcases hin t b hb2 with h | h
    · have hb : b = false := hfalse (t, b) h
      subst hb
      exact ⟨hb1, h⟩
    · simp only [Prod.mk.injEq] at h
      exact absurd h.1 ht

/-- C12 (witness): two dependencies, two threads, `DCHECK` active. Thread 0 loads the
assertion first, thread 1 then takes both of its steps, and thread 0 increments last: thread 1
returns false and thread 0 returns true. -/
theorem finish_one_dependency_interleaved_witness :
    ((0 : Nat) < 2 ∧ (2 : Nat) ≤ UINT32_MOD
      ∧ ∀ t, ([0, 1, 1, 0] : List (Fin 2)).count t = Concurrent.steps_per_call true)
    ∧ (∃ (st : Concurrent 2 2) (front : List (Fin 2 × Bool)) (last : Fin 2),
        (Concurrent.init (Pipeline.with_dependencies 2 0)).run true [0, 1, 1, 0] = some st
        ∧ st.completed = front ++ [(last, true)]
        ∧ (∀ e ∈ front, e.2 = false)
        ∧ st.threads last = Thread.returned true
        ∧ ∀ t, t ≠ last → st.threads t = Thread.returned false ∧ (t, false) ∈ front)
    ∧ ((Concurrent.init (Pipeline.with_dependencies 2 0)).run true
          ([0, 1, 1, 0] : List (Fin 2))).map (fun st => st.completed)
        = some [(1, false), (0, true)] :=
  ⟨by decide,
   finish_one_dependency_interleaved true (Pipeline.with_dependencies 2 0) [0, 1, 1, 0]
     (by decide) (by decide) (by decide) (by decide) (by decide),
   by decide⟩

end doris.pipeline
